import Mathlib

/-!
Verification development for the governance core of an LLM task-execution
agent: security gate, audit trail, permission policy, tool dispatcher,
context monitor and agent loop.  Python source modules are shallowly
embedded as executable Lean definitions; machine-independent behaviour
(string manipulation, set membership, control flow) is translated
faithfully, while external collaborators (wall clock, SHA-256 from
`hashlib`, the LLM backend, raw disk I/O) appear as explicit parameters.
-/

namespace Agent

/-! ## String helpers

Python string primitives (`lower`, `in`, slicing, `count`, `replace`,
`rstrip`, `readlines`, lexicographic `<=`) re-implemented over `List Char`
so that every definition reduces in the kernel.  ASCII behaviour is what
the source exercises; the Unicode special cases of Python's `str.lower`
and `str.isspace` beyond ASCII are out of scope. -/

/-- Character count of a string (Python `len`, counting code points). -/
def strLen (s : String) : Nat := s.data.length

/-- First `n` characters (Python `s[:n]` for `n ≥ 0`). -/
def strTake (s : String) (n : Nat) : String := String.mk (s.data.take n)

/-- Python `str.lower` (ASCII case folding). -/
def pyLower (s : String) : String := String.mk (s.data.map Char.toLower)

/-- Substring test on character lists, scanning left to right. -/
def listContainsSub (hay needle : List Char) : Bool :=
  if needle.isPrefixOf hay then true
  else match hay with
    | [] => false
    | _ :: t => listContainsSub t needle

/-- Python `needle in hay` for strings. -/
def pyIn (needle hay : String) : Bool := listContainsSub hay.data needle.data

/-- Lexicographic code-point comparison of character lists, Python `<=`. -/
def charListLe : List Char → List Char → Bool
  | [], _ => true
  | _ :: _, [] => false
  | a :: as, b :: bs =>
    if a.toNat < b.toNat then true
    else if b.toNat < a.toNat then false
    else charListLe as bs

/-- Python string `<=` (code-point lexicographic). -/
def strLe (a b : String) : Bool := charListLe a.data b.data

/-- Count of non-overlapping occurrences of the non-empty pattern
`pat`, scanning left to right.  Structural recursion on a fuel bound
(initially the haystack length): each step consumes at least one
character, so the fuel never runs out on the initial call. -/
def countOccurAux (pat : List Char) : Nat → List Char → Nat
  | 0, _ => 0
  | _ + 1, [] => 0
  | fuel + 1, c :: t =>
    if pat.isPrefixOf (c :: t) then
      1 + countOccurAux pat fuel ((c :: t).drop pat.length)
    else countOccurAux pat fuel t

/-- Python `hay.count(needle)`: non-overlapping occurrences; the empty
pattern counts `len(hay) + 1` times. -/
def countOccur (hay needle : String) : Nat :=
  match needle.data with
  | [] => hay.data.length + 1
  | n :: ns => countOccurAux (n :: ns) hay.data.length hay.data

/-- Replace all non-overlapping occurrences of the non-empty pattern
`pat`, left to right, with the same fuel discipline. -/
def replaceAllAux (pat repl : List Char) : Nat → List Char → List Char
  | 0, l => l
  | _ + 1, [] => []
  | fuel + 1, c :: t =>
    if pat.isPrefixOf (c :: t) then
      repl ++ replaceAllAux pat repl fuel ((c :: t).drop pat.length)
    else c :: replaceAllAux pat repl fuel t

/-- Python `s.replace(old, new)` (replace every occurrence; an empty
`old` interleaves `new` around every character). -/
def pyReplaceAll (s old new : String) : String :=
  match old.data with
  | [] => String.mk (new.data ++ s.data.flatMap (fun c => c :: new.data))
  | n :: ns => String.mk (replaceAllAux (n :: ns) new.data s.data.length s.data)

/-- Replace the first occurrence only (auxiliary for `pyReplaceFirst`). -/
def replaceFirstAux (needle repl : List Char) : List Char → List Char
  | [] => []
  | c :: t =>
    if needle.isPrefixOf (c :: t) then repl ++ (c :: t).drop needle.length
    else c :: replaceFirstAux needle repl t

/-- Python `s.replace(old, new, 1)`. -/
def pyReplaceFirst (s old new : String) : String :=
  if old.data = [] then new ++ s
  else String.mk (replaceFirstAux old.data new.data s.data)

/-- Python whitespace characters stripped by `str.rstrip()` (ASCII). -/
def isPySpace (c : Char) : Bool :=
  c = ' ' ∨ c = '\t' ∨ c = '\n' ∨ c = '\x0d' ∨ c = '\x0b' ∨ c = '\x0c'

/-- Python `s.rstrip()`. -/
def pyRstrip (s : String) : String :=
  String.mk ((s.data.reverse.dropWhile isPySpace).reverse)

/-- Split into lines the way Python `file.readlines()` does: each line
keeps its trailing newline; a final fragment without a newline is its
own line; empty input yields no lines. -/
def readlinesAux (acc : List Char) : List Char → List (List Char)
  | [] => if acc = [] then [] else [acc.reverse]
  | c :: t =>
    if c = '\n' then (acc.reverse ++ ['\n']) :: readlinesAux [] t
    else readlinesAux (c :: acc) t

/-- Python `readlines` over a whole file content string. -/
def pyReadlines (content : String) : List (List Char) :=
  readlinesAux [] content.data

/-- Right-justify a decimal number in a field of the given width with
spaces, Python `f"{i:6d}"`-style. -/
def padNum (width i : Nat) : String :=
  let s := toString i
  String.mk (List.replicate (width - s.data.length) ' ' ++ s.data)

/-- Embeds `collections.deque(maxlen := cap)` append: push right, dropping
from the left once over capacity. -/
def dequeAppend {α : Type} (cap : Nat) (h : List α) (x : α) : List α :=
  let h' := h ++ [x]
  if cap < h'.length then h'.drop (h'.length - cap) else h'

/-- Comma-grouped decimal rendering of a natural number, as Python's
`f"{n:,}"` produces for non-negative integers (groups of three digits
from the right, separated by commas). Works on the reversed digit list. -/
def commaRev : List Char → List Char
  | a :: b :: c :: d :: rest => a :: b :: c :: ',' :: commaRev (d :: rest)
  | l => l

/-- Python `f"{n:,}"` for a natural number `n`. -/
def commaFmt (n : Nat) : String :=
  String.mk (commaRev (toString n).toList.reverse).reverse

/-- The truncation notice appended by `SecurityManager.truncate_output`
(`src/core/security.py`), for a given omitted-character count. -/
def truncMarker (omitted : Nat) : String :=
  "\n\n... [OUTPUT TRUNCATED - " ++ commaFmt omitted ++ " bytes omitted]"

/-- Core of `SecurityManager.truncate_output` (`src/core/security.py`,
lines 183-199) once the effective maximum size is known: return the
output unchanged when it fits, otherwise keep the first `maxSize`
characters and append the truncation notice. -/
def truncateOutput (output : String) (maxSize : Nat) : String × Bool :=
  if strLen output ≤ maxSize then (output, false)
  else (strTake output maxSize ++ truncMarker (strLen output - maxSize), true)

/-- Python's `max_size = max_size or self.config.max_output_size`:
`None` and `0` both fall back to the configured default. -/
def resolveMaxSize (maxSize : Option Nat) (cfgMax : Nat) : Nat :=
  match maxSize with
  | none => cfgMax
  | some v => if v == 0 then cfgMax else v

/-- Embeds `SecurityManager.truncate_output` with its optional `max_size`
argument and the configured `max_output_size` default. -/
def truncateOutputPy (output : String) (maxSize : Option Nat) (cfgMax : Nat) :
    String × Bool :=
  truncateOutput output (resolveMaxSize maxSize cfgMax)

/-- Default `SecurityConfig.max_output_size` (50 KB). -/
def maxOutputSizeDefault : Nat := 50 * 1024

/-! ## Path resolution

`os.path.normpath` / `os.path.join` (POSIX flavour) as purely syntactic
functions.  `pathlib.Path.resolve()` additionally follows symlinks in
the live filesystem; with no symlinks present it coincides with this
syntactic normalisation, which is how it is modelled here. -/

/-- Does the path string start with `/`? (`os.path.isabs`, POSIX). -/
def isAbsStr (p : String) : Bool := p.data.head? = some '/'

/-- One step of `posixpath.normpath`'s component loop.  `ini` records
whether the path was absolute (leading `..` components are dropped at
the root of an absolute path, kept for a relative one). -/
def normStep (ini : Bool) (acc : List (List Char)) (comp : List Char) :
    List (List Char) :=
  if comp = [] ∨ comp = ['.'] then acc
  else if comp ≠ ['.', '.'] ∨ (¬ini ∧ acc = []) ∨ acc.getLast? = some ['.', '.'] then
    acc ++ [comp]
  else acc.dropLast

/-- The number of leading slashes `posixpath.normpath` preserves:
two for `//x` (POSIX-special), otherwise one for absolute paths. -/
def initialSlashes (cs : List Char) : Nat :=
  if cs.head? = some '/' then
    if cs.take 3 = ['/', '/', '/'] then 1
    else if cs.take 2 = ['/', '/'] then 2
    else 1
  else 0

/-- Embeds `posixpath.normpath`: collapse `.`, `..` and repeated separators. -/
def pyNormpath (path : String) : String :=
  if path = "" then "."
  else
    let cs := path.data
    let ini := initialSlashes cs
    let comps := List.splitOn '/' cs
    let newComps := comps.foldl (normStep (ini ≠ 0)) []
    let full := List.replicate ini '/' ++ List.intercalate ['/'] newComps
    if full = [] then "." else String.mk full

/-- Embeds `posixpath.join a b` for the two-argument case. -/
def pyJoin (a b : String) : String :=
  if b.data.head? = some '/' then b
  else if a = "" ∨ a.data.getLast? = some '/' then a ++ b
  else a ++ "/" ++ b

/-- The relative-path handling shared by the file-operation tools
(`src/tools/file_ops.py`): join a relative path onto the working
directory, then `normpath`. -/
def resolveToolPath (workingDir path : String) : String :=
  if isAbsStr path then pyNormpath path
  else pyNormpath (pyJoin workingDir path)

/-- Embeds `pathlib`-style parts of a normalised path: the root `/` (when
absolute) followed by the non-empty segments. -/
def pathParts (s : String) : List (List Char) :=
  let segs := (List.splitOn '/' s.data).filter (· ≠ [])
  if isAbsStr s then ['/'] :: segs else segs

/-- Embeds `pathlib.PurePath.name`: final segment, `""` for the root. -/
def pathName (s : String) : List Char :=
  (((List.splitOn '/' s.data).filter (· ≠ [])).getLast?).getD []

/-! ## SecurityManager.validate_path (`src/core/security.py`, lines 99-134) -/

/-- Embeds `SecurityManager.SENSITIVE_FILES`. -/
def SENSITIVE_FILES : List String :=
  [".env", ".env.local", ".env.production", ".env.development",
   "credentials.json", "secrets.json", "config.secret.json",
   "id_rsa", "id_ed25519", "id_dsa", "id_ecdsa",
   ".aws/credentials", ".ssh/config", ".netrc", ".npmrc", ".pypirc"]

/-- The `for part in resolved.parts` loop of `validate_path`: block
`.env`-prefixed segments anywhere, and `.aws`/`.ssh` segments whose
first occurrence is not the final segment (Python's `parts.index(part)`
finds the first occurrence). -/
def partsScan (path : String) (full : List (List Char)) :
    List (List Char) → Option String
  | [] => none
  | part :: rest =>
    if ['.', 'e', 'n', 'v'].isPrefixOf part then
      some ("Access to .env file blocked: " ++ path)
    else if (part = ['.', 'a', 'w', 's'] ∨ part = ['.', 's', 's', 'h']) ∧
        full.indexOf part + 1 < full.length then
      some ("Access to credentials directory blocked: " ++ path)
    else partsScan path full rest

/-- The resolution step of `validate_path`: relative candidates are
joined onto the (resolved) workspace root, then the whole path is
resolved (`Path.resolve`, modelled syntactically). -/
def resolvedPathSec (workspaceRoot path : String) : String :=
  if isAbsStr path then pyNormpath path
  else pyNormpath (pyJoin (pyNormpath workspaceRoot) path)

/-- Embeds `SecurityManager.validate_path`.  The workspace root is resolved at
construction time (`Path(workspace_root).resolve()`), the candidate path
is resolved against it, and the result must stay inside the workspace
and avoid sensitive filenames and credential directories.  Returns
`(is_valid, message)`. -/
def validatePath (workspaceRoot path : String) : Bool × String :=
  let ws := pyNormpath workspaceRoot
  let resolved := resolvedPathSec workspaceRoot path
  if ¬ (pathParts ws).isPrefixOf (pathParts resolved) then
    (false, "Path outside workspace: " ++ path)
  else
    let fname := String.mk (pathName resolved)
    if fname ∈ SENSITIVE_FILES then
      (false, "Access to sensitive file blocked: " ++ fname)
    else
      match partsScan path (pathParts resolved) (pathParts resolved) with
      | some reason => (false, reason)
      | none => (true, "OK")

/-! ## AuditLogger (`src/core/audit.py`)

Entries live in an in-process store standing for the session's
append-only JSONL file; the JSON round trip is the identity on the
modelled fields.  `hashlib.sha256(...).hexdigest()[:32]` is an external
library call, modelled as an explicit hash-function parameter `h`. -/

/-- A Python value as it appears in tool parameters: a string, a nested
dict, a list, or any other JSON scalar (numbers, booleans, `None`),
which `_sanitize_params` passes through untouched. -/
inductive PVal where
  | str : String → PVal
  | dict : List (String × PVal) → PVal
  | vlist : List PVal → PVal
  | other : PVal

/-- Embeds `AuditLogger.SENSITIVE_KEYS`. -/
def SENSITIVE_KEYS_AUDIT : List String :=
  ["password", "secret", "key", "token", "credential",
   "api_key", "apikey", "auth", "bearer", "private"]

/-- Does the lowercased key contain one of the sensitive substrings? -/
def isSensitiveKeyB (k : String) : Bool :=
  SENSITIVE_KEYS_AUDIT.any (fun s => pyIn s (pyLower k))

/-- Embeds `AuditLogger._sanitize_params` (`src/core/audit.py`, lines 98-126):
redact sensitive keys, size-cap long strings and lists, recurse into
nested dicts; lists that are short enough are kept as they are. -/
def sanitizeParams : List (String × PVal) → List (String × PVal)
  | [] => []
  | (k, v) :: rest =>
    let v' :=
      if isSensitiveKeyB k then PVal.str "[REDACTED]"
      else match v with
        | .str s =>
          if 1000 < strLen s then .str ("[" ++ toString (strLen s) ++ " chars]")
          else .str s
        | .dict m => .dict (sanitizeParams m)
        | .vlist l =>
          if 10 < l.length then .str ("[" ++ toString l.length ++ " items]")
          else .vlist l
        | .other => .other
    (k, v') :: sanitizeParams rest

/-- A stored audit entry (`AuditEntry` dataclass). -/
structure AuditEntry where
  timestamp : String
  sessionId : String
  action : String
  toolName : Option String
  parameters : List (String × PVal)
  resultSummary : String
  userApproved : Bool
  hashVal : String

/-- Python `f"{x}"` of an `Optional[str]`: `None` prints as `"None"`. -/
def pyStrOpt : Option String → String
  | none => "None"
  | some s => s

/-- The hash input of an entry: the pipe-joined concatenation of
timestamp, session id, action, tool name and result summary used both
by `AuditEntry.__post_init__` and `verify_integrity` — the parameters
field is deliberately absent. -/
def entryContent (ts sid action : String) (toolName : Option String)
    (summary : String) : String :=
  ts ++ "|" ++ sid ++ "|" ++ action ++ "|" ++ pyStrOpt toolName ++ "|" ++ summary

/-- The `entryContent` of a stored entry's fields. -/
def entryContentOf (e : AuditEntry) : String :=
  entryContent e.timestamp e.sessionId e.action e.toolName e.resultSummary

/-- Embeds `AuditEntry.__post_init__`: an entry constructed with an empty hash
receives `h` of its `entryContent`. -/
def mkAuditEntry (h : String → String) (ts sid action : String)
    (toolName : Option String) (params : List (String × PVal))
    (summary : String) (approved : Bool) : AuditEntry :=
  { timestamp := ts, sessionId := sid, action := action, toolName := toolName,
    parameters := params, resultSummary := summary, userApproved := approved,
    hashVal := h (entryContent ts sid action toolName summary) }

/-- The arguments of one `AuditLogger.log` call (the timestamp comes
from the wall clock at logging time). -/
structure LogArgs where
  ts : String
  sessionId : String
  action : String
  toolName : Option String
  parameters : List (String × PVal)
  resultSummary : String
  userApproved : Bool

/-- Embeds `AuditLogger.log` (`src/core/audit.py`, lines 63-96): sanitize the
parameters, cap the summary at 500 characters, build the entry (hashing
it in `__post_init__`) and append it to the session's log. -/
def auditLog (h : String → String) (store : List AuditEntry) (a : LogArgs) :
    List AuditEntry :=
  store ++ [mkAuditEntry h a.ts a.sessionId a.action a.toolName
    (sanitizeParams a.parameters) (strTake a.resultSummary 500) a.userApproved]

/-- A session log built from scratch by successive `log` calls. -/
def buildLog (h : String → String) (calls : List LogArgs) : List AuditEntry :=
  calls.foldl (auditLog h) []

/-- Embeds `get_session_log` sorts the session's entries by timestamp
(Python's stable sort). -/
def sortEntries (l : List AuditEntry) : List AuditEntry :=
  l.mergeSort (fun a b => strLe a.timestamp b.timestamp)

/-- Does a stored entry fail re-verification (stored hash differs from
the hash recomputed over its stored fields)? -/
def entryMismatch (h : String → String) (e : AuditEntry) : Bool :=
  e.hashVal ≠ h (entryContentOf e)

/-- The issue list of `verify_integrity` over already-sorted entries. -/
def entryIssues (h : String → String) (entries : List AuditEntry) : List String :=
  entries.enum.filterMap (fun p =>
    if entryMismatch h p.2 then
      some ("Entry " ++ toString p.1 ++ ": Hash mismatch (possible tampering)")
    else none)

/-- Embeds `AuditLogger.verify_integrity` (`src/core/audit.py`, lines 145-165):
recompute each entry's hash from its stored fields and report every
mismatch; valid iff no issues. -/
def verifyIntegrity (h : String → String) (store : List AuditEntry) :
    Bool × List String :=
  let issues := entryIssues h (sortEntries store)
  (issues.isEmpty, issues)

/-! ## Sanitization predicates

The spec's description of sanitized parameters, as checkable predicates
on the stored (post-sanitization) value. -/

/-- Is the value the literal redaction marker? -/
def isRedactedB : PVal → Bool
  | .str s => s = "[REDACTED]"
  | _ => false

/-- Is the string formatted like one of the size markers
(`[N chars]` / `[N items]`), i.e. bracket-delimited? -/
def isSizeMarkerB (s : String) : Bool :=
  s.data.head? = some '[' ∧ s.data.getLast? = some ']'

/-- A stored string is acceptable when it respects the length cap or is
a size marker. -/
def strCapOkB (s : String) : Bool :=
  strLen s ≤ 1000 ∨ isSizeMarkerB s

mutual

/-- The spec's sanitization property read at every nesting depth,
descending through nested dicts and through list elements alike. -/
def deepSanitizedValB : PVal → Bool
  | .str s => strCapOkB s
  | .other => true
  | .dict m => deepSanitizedB m
  | .vlist l => l.length ≤ 10 && deepSanitizedListB l

/-- Extension of `deepSanitizedValB` over the elements of a list value. -/
def deepSanitizedListB : List PVal → Bool
  | [] => true
  | v :: t => deepSanitizedValB v && deepSanitizedListB t

/-- Extension of `deepSanitizedValB` over a parameter map: sensitive keys must be
redacted, every other value must satisfy the value predicate. -/
def deepSanitizedB : List (String × PVal) → Bool
  | [] => true
  | (k, v) :: t =>
    (if isSensitiveKeyB k then isRedactedB v else deepSanitizedValB v) &&
      deepSanitizedB t

end

mutual

/-- The sanitization property that `_sanitize_params` actually
establishes: it descends through nested dict values, but the elements
of a retained (short) list are stored as-is and not re-examined. -/
def dictSanitizedValB : PVal → Bool
  | .str s => strCapOkB s
  | .other => true
  | .dict m => dictSanitizedB m
  | .vlist l => l.length ≤ 10

/-- Extension of `dictSanitizedValB` over a parameter map. -/
def dictSanitizedB : List (String × PVal) → Bool
  | [] => true
  | (k, v) :: t =>
    (if isSensitiveKeyB k then isRedactedB v else dictSanitizedValB v) &&
      dictSanitizedB t

end

/-! ## PermissionManager (`src/core/permissions.py`) -/

/-- Embeds `PermissionAction`. -/
inductive PermissionAction where
  | ALLOW | DENY | ASK | ASK_ONCE
deriving DecidableEq

/-- Embeds `PermissionRequest`. -/
structure PermissionRequest where
  toolName : String
  operation : String
  target : String
  riskLevel : String
deriving DecidableEq

/-- Embeds `PermissionResult`. -/
structure PermissionResult where
  allowed : Bool
  reason : String
  remember : Bool := false
deriving DecidableEq

/-- Embeds `PermissionManager.DEFAULT_RULES`. -/
def DEFAULT_RULES : List (String × PermissionAction) :=
  [("read_file", .ALLOW), ("glob", .ALLOW), ("grep", .ALLOW),
   ("list_dir", .ALLOW), ("view_image", .ALLOW), ("todo_read", .ALLOW),
   ("semantic_search", .ALLOW),
   ("write_file", .ASK_ONCE), ("edit_file", .ASK_ONCE),
   ("create_markdown", .ASK_ONCE),
   ("bash", .ASK), ("python_exec", .ASK), ("create_word", .ASK),
   ("create_excel", .ASK),
   ("todo_write", .ALLOW)]

/-- Embeds `DEFAULT_RULES.get(tool_name, PermissionAction.ASK)`. -/
def ruleFor (tool : String) : PermissionAction :=
  (((DEFAULT_RULES.find? (·.1 = tool)).map (·.2)).getD .ASK)

/-- The mutable sets of `PermissionManager`: per-session approval
patterns plus the global allow and deny pattern sets.  List membership
models Python set membership; `List.insert` models set `add`. -/
structure PermState where
  sessionApprovals : List (String × List String)
  alwaysApproved : List String
  alwaysDenied : List String

/-- The `"tool:target"` pattern string. -/
def patternOf (tool target : String) : String := tool ++ ":" ++ target

/-- The approval set remembered for a session (empty when the session
has no entry, matching the `session_id in self.session_approvals`
guard). -/
def approvalsOf (st : PermState) (sessionId : String) : List String :=
  (((st.sessionApprovals.find? (·.1 = sessionId)).map (·.2)).getD [])

/-- Embeds `PermissionManager._assess_risk`. -/
def assessRisk (tool target : String) : String :=
  if tool = "bash" ∨ tool = "python_exec" then "high"
  else if [".env", "secret", "password", "credential", "key", "token",
      "auth"].any (fun s => pyIn s (pyLower target)) then "high"
  else if tool = "write_file" ∨ tool = "edit_file" then "medium"
  else "low"

/-- The `AuditLogger.log` call made by
`PermissionManager._log_decision`. -/
def logDecisionCall (ts sid tool target : String) (allowed : Bool)
    (reason : String) : LogArgs :=
  { ts := ts, sessionId := sid, action := "permission_decision",
    toolName := some tool,
    parameters := [("target", .str target), ("reason", .str reason)],
    resultSummary := if allowed then "Approved" else "Denied",
    userApproved := allowed }

/-- Embeds `PermissionManager._remember_decision`: an allowed decision joins
the session's approval set, a denied one the global deny set. -/
def rememberDecision (st : PermState) (sessionId pat : String)
    (allowed : Bool) : PermState :=
  if allowed then
    if (st.sessionApprovals.find? (·.1 = sessionId)).isSome then
      { st with sessionApprovals := st.sessionApprovals.map (fun kv =>
          if kv.1 = sessionId then (kv.1, List.insert pat kv.2) else kv) }
    else
      { st with sessionApprovals := (sessionId, [pat]) :: st.sessionApprovals }
  else { st with alwaysDenied := List.insert pat st.alwaysDenied }

/-- Embeds `context.get("operation", "execute") if context else "execute"`. -/
def operationOf (context : Option (List (String × String))) : String :=
  match context with
  | none => "execute"
  | some c => (((c.find? (·.1 = "operation")).map (·.2)).getD "execute")

/-- Everything one `check_permission` call produces: the decision, the
updated manager state, the audit-log calls it makes (emitted only when
an `AuditLogger` is attached), and whether the external approval
callback was invoked. -/
structure CheckOutcome where
  res : PermissionResult
  st : PermState
  logged : List LogArgs
  asked : Bool

/-- Embeds `PermissionManager.check_permission` (`src/core/permissions.py`,
lines 81-150).  `auditAttached` models whether `self.audit` is set,
`onRequest` models `self.on_request`, and `ts` is the wall-clock
timestamp any audit entry would carry. -/
def checkPermission (st : PermState) (auditAttached : Bool)
    (onRequest : Option (PermissionRequest → PermissionResult))
    (ts sessionId toolName target : String)
    (context : Option (List (String × String))) : CheckOutcome :=
  let rule := ruleFor toolName
  let pat := patternOf toolName target
  if pat ∈ st.alwaysDenied then
    { res := ⟨false, "Always denied", false⟩, st := st,
      logged := if auditAttached then
        [logDecisionCall ts sessionId toolName target false "Always denied"]
        else [],
      asked := false }
  else if rule = .ALLOW then
    { res := ⟨true, "Tool always allowed", false⟩, st := st, logged := [],
      asked := false }
  else if rule = .DENY then
    { res := ⟨false, "Tool not permitted", false⟩, st := st,
      logged := if auditAttached then
        [logDecisionCall ts sessionId toolName target false "Denied by rule"]
        else [],
      asked := false }
  else if pat ∈ st.alwaysApproved then
    { res := ⟨true, "Always approved", false⟩, st := st, logged := [],
      asked := false }
  else if rule = .ASK_ONCE ∧ pat ∈ approvalsOf st sessionId then
    { res := ⟨true, "Previously approved this session", false⟩, st := st,
      logged := [], asked := false }
  else if rule = .ASK_ONCE ∧ patternOf toolName "*" ∈ approvalsOf st sessionId then
    { res := ⟨true, "Tool approved for session", false⟩, st := st,
      logged := [], asked := false }
  else
    match onRequest with
    | some cb =>
      let request : PermissionRequest :=
        ⟨toolName, operationOf context, target, assessRisk toolName target⟩
      let result := cb request
      let st' := if result.remember then
        rememberDecision st sessionId pat result.allowed else st
      { res := result, st := st',
        logged := if auditAttached then
          [logDecisionCall ts sessionId toolName target result.allowed
            result.reason] else [],
        asked := true }
    | none =>
      { res := ⟨false, "No permission handler configured", false⟩, st := st,
        logged := [], asked := false }

/-- Embeds `PermissionManager.always_deny` with its default target `"*"`. -/
def alwaysDeny (st : PermState) (tool : String) (target : String := "*") :
    PermState :=
  { st with alwaysDenied := List.insert (patternOf tool target) st.alwaysDenied }

/-! ## ToolRegistry.execute (`src/core/tools.py`, lines 143-222)

The security manager and the registered tools are collaborators the
dispatcher calls as black boxes, so they appear as function-valued
fields.  Tool argument values are modelled as strings (the validators
receive `args["file_path"]` / `args["path"]` / `args["command"]`
directly). -/

/-- The `SecurityManager` interface as the dispatcher sees it. -/
structure SecGate where
  validatePathF : String → Bool × String
  validateCommandF : String → Bool × String
  truncateF : String → String × Bool

/-- What a tool's `execute(args, ctx)` does: return a result string or
raise an exception carrying the message `str(e)`. -/
inductive ExecOutcome where
  | ok : String → ExecOutcome
  | exc : String → ExecOutcome

/-- A registered tool, reduced to what `ToolRegistry.execute` uses. -/
structure RTool where
  name : String
  exec : List (String × String) → ExecOutcome

/-- The dispatcher's execution context: session id, optional security
manager, and whether an audit logger is attached. -/
structure DispatchCtx where
  sessionId : String
  security : Option SecGate
  auditAttached : Bool

/-- Dict values as logged: each string argument becomes a `PVal`. -/
def pvalArgs (args : List (String × String)) : List (String × PVal) :=
  args.map (fun kv => (kv.1, .str kv.2))

/-- Embeds `args.get(key)` on the modelled argument dict. -/
def argLookup (args : List (String × String)) (k : String) : Option String :=
  ((args.find? (·.1 = k)).map (·.2))

/-- The three security checks at the top of `ToolRegistry.execute`:
`file_path`, then `path`, then `command`; the first failure
short-circuits with its message. -/
def securityScreen (sec : SecGate) (args : List (String × String)) :
    Option String :=
  match argLookup args "file_path" with
  | some v =>
    if ¬ (sec.validatePathF v).1 then some (sec.validatePathF v).2
    else match argLookup args "path" with
      | some w =>
        if ¬ (sec.validatePathF w).1 then some (sec.validatePathF w).2
        else match argLookup args "command" with
          | some c =>
            if ¬ (sec.validateCommandF c).1 then some (sec.validateCommandF c).2
            else none
          | none => none
      | none =>
        match argLookup args "command" with
        | some c =>
          if ¬ (sec.validateCommandF c).1 then some (sec.validateCommandF c).2
          else none
        | none => none
  | none =>
    match argLookup args "path" with
    | some w =>
      if ¬ (sec.validatePathF w).1 then some (sec.validatePathF w).2
      else match argLookup args "command" with
        | some c =>
          if ¬ (sec.validateCommandF c).1 then some (sec.validateCommandF c).2
          else none
        | none => none
    | none =>
      match argLookup args "command" with
      | some c =>
        if ¬ (sec.validateCommandF c).1 then some (sec.validateCommandF c).2
        else none
      | none => none

/-- Embeds `ToolRegistry.execute`: unknown tool and security failures return
error strings without logging; otherwise the call is logged, the tool
runs, its output is truncated, and a result or error entry is logged.
Returns the result string and the `AuditLogger.log` calls made
(`ts` is the wall-clock timestamp those calls would carry). -/
def registryExecute (registry : List RTool) (env : DispatchCtx) (ts : String)
    (name : String) (args : List (String × String)) : String × List LogArgs :=
  match registry.find? (·.name = name) with
  | none => ("Error: Unknown tool '" ++ name ++ "'", [])
  | some tool =>
    let screen := match env.security with
      | some sec => securityScreen sec args
      | none => none
    match screen with
    | some msg => ("Security Error: " ++ msg, [])
    | none =>
      let callLog : List LogArgs := if env.auditAttached then
        [{ ts := ts, sessionId := env.sessionId, action := "tool_call",
           toolName := some name, parameters := pvalArgs args,
           resultSummary := "executing...", userApproved := true }] else []
      match tool.exec args with
      | .ok result =>
        let result' := match env.security with
          | some sec => (sec.truncateF result).1
          | none => result
        let summary := if 100 < strLen result' then strTake result' 100
          else result'
        let resLog : List LogArgs := if env.auditAttached then
          [{ ts := ts, sessionId := env.sessionId, action := "tool_result",
             toolName := some name, parameters := [],
             resultSummary := summary, userApproved := true }] else []
        (result', callLog ++ resLog)
      | .exc e =>
        let errorMsg := "Error executing " ++ name ++ ": " ++ e
        let errLog : List LogArgs := if env.auditAttached then
          [{ ts := ts, sessionId := env.sessionId, action := "tool_error",
             toolName := some name, parameters := [],
             resultSummary := errorMsg, userApproved := true }] else []
        (errorMsg, callLog ++ errLog)

/-! ## AgentLoop doom-loop detection (`src/core/agent_loop.py`) -/

/-- A tool call proposed by the model; `input` is the serialized
argument string `str(tc.input)` used as the repetition key. -/
structure ToolCallM where
  id : String
  name : String
  input : String
deriving DecidableEq

/-- Embeds `truncate_tool_result` (`src/core/agent_loop.py`, lines 22-26). -/
def truncateToolResult (result : String) (maxChars : Nat := 5000) : String :=
  if strLen result ≤ maxChars then result
  else strTake result maxChars ++ "\n\n[Truncated - " ++ toString (strLen result)
    ++ " chars total, showing first " ++ toString maxChars ++ "]"

/-- How many entries of the tool-history ring buffer equal this call's
`(name, str(input))` key. -/
def historyCount (hist : List (String × String)) (tc : ToolCallM) : Nat :=
  hist.countP (fun h => h = (tc.name, tc.input))

/-- Embeds `AgentLoop._detect_doom_loop` (`src/core/agent_loop.py`, lines
318-337): short-circuit when the buffer is shorter than the threshold,
else flag any proposed call whose key already occurs at least
`threshold` times. -/
def detectDoomLoop (hist : List (String × String)) (threshold : Nat)
    (calls : List ToolCallM) : Bool :=
  if hist.length < threshold then false
  else calls.any (fun tc => threshold ≤ historyCount hist tc)

/-- The outcome of the tool-execution phase of one `AgentLoop.run`
turn: whether the doom-loop breaker fired, the tool-result blocks
produced, and the updated ring buffer. -/
structure TurnOutcome where
  doomStopped : Bool
  results : List (String × String)
  newHist : List (String × String)

/-- Fold of the `for tc in response.tool_calls` body (`src/core/
agent_loop.py`, lines 171-204): approval-gated execution, result
truncation, and ring-buffer append for each executed call.
`findTool tc.name` returns the registered tool's `requires_approval`
flag, `onApproval` the optional approval callback, and `execF` stands
for `registry.execute` on the loop's context. -/
def runCalls (findTool : String → Option Bool)
    (onApproval : Option (String → String → Bool))
    (execF : ToolCallM → String) :
    List ToolCallM → List (String × String) → List (String × String) →
    List (String × String) × List (String × String)
  | [], results, hist => (results, hist)
  | tc :: rest, results, hist =>
    let requiresApp := (findTool tc.name).getD false
    match onApproval with
    | some appr =>
      if requiresApp ∧ ¬ appr tc.name tc.input then
        runCalls findTool onApproval execF rest
          (results ++ [(tc.id, "User denied permission for this operation.")])
          hist
      else
        let result := execF tc
        runCalls findTool onApproval execF rest
          (results ++ [(tc.id, truncateToolResult result)])
          (dequeAppend 10 hist (tc.name, tc.input))
    | none =>
      let result := execF tc
      runCalls findTool onApproval execF rest
        (results ++ [(tc.id, truncateToolResult result)])
        (dequeAppend 10 hist (tc.name, tc.input))

/-- The per-turn tool-processing step of `AgentLoop.run` (`src/core/
agent_loop.py`, lines 146-204): the doom-loop check runs first over the
proposed calls, and when it fires the loop breaks before executing any
of them. -/
def processTurn (findTool : String → Option Bool)
    (onApproval : Option (String → String → Bool))
    (execF : ToolCallM → String) (hist : List (String × String))
    (threshold : Nat) (calls : List ToolCallM) : TurnOutcome :=
  if detectDoomLoop hist threshold calls then
    { doomStopped := true, results := [], newHist := hist }
  else
    let (results, hist') := runCalls findTool onApproval execF calls [] hist
    { doomStopped := false, results := results, newHist := hist' }

/-! ## File-operation tools (`src/tools/file_ops.py`)

The filesystem is a finite map from normalised path strings to file
contents plus a set of directory paths; `open` never fails on a regular
file in the model (true I/O errors are environment conditions outside
it). -/

/-- The modelled filesystem. -/
structure FileSys where
  files : List (String × String)
  dirs : List String

/-- Content of a regular file, if present. -/
def fsLookup (fs : FileSys) (p : String) : Option String :=
  ((fs.files.find? (·.1 = p)).map (·.2))

/-- Embeds `os.path.isdir`. -/
def fsIsDir (fs : FileSys) (p : String) : Bool := p ∈ fs.dirs

/-- Embeds `os.path.exists`: a regular file or a directory. -/
def fsHasPath (fs : FileSys) (p : String) : Bool :=
  (fsLookup fs p).isSome ∨ fsIsDir fs p

/-- Write (create or overwrite) a regular file. -/
def fsWrite (fs : FileSys) (p content : String) : FileSys :=
  if (fs.files.find? (·.1 = p)).isSome then
    { fs with files := fs.files.map (fun kv =>
        if kv.1 = p then (kv.1, content) else kv) }
  else { fs with files := (p, content) :: fs.files }

/-- Embeds `os.path.dirname` (POSIX). -/
def pyDirname (p : String) : String :=
  let cs := p.data
  if '/' ∈ cs then
    let i := cs.length - cs.reverse.indexOf '/'
    let head := cs.take i
    if head ≠ [] ∧ head.any (· ≠ '/') then
      String.mk ((head.reverse.dropWhile (· = '/')).reverse)
    else String.mk head
  else ""

/-- Render a `pathParts`-style segment list back into a path string. -/
def renderParts : List (List Char) → String
  | [] => ""
  | ['/'] :: segs => String.mk ('/' :: List.intercalate ['/'] segs)
  | segs => String.mk (List.intercalate ['/'] segs)

/-- Embeds `os.makedirs(d, exist_ok=True)`: register `d` and every ancestor
as a directory. -/
def fsMakedirs (fs : FileSys) (d : String) : FileSys :=
  let parts := pathParts d
  let newDirs := (List.range parts.length).map (fun i =>
    renderParts (parts.take (i + 1)))
  { fs with dirs := newDirs.foldl (fun acc x => List.insert x acc) fs.dirs }

/-- The per-session `ToolContext` state the file tools use
(`src/core/tools.py`, lines 19-36); the manager references it also
carries are modelled separately as dispatcher collaborators. -/
structure ToolContext where
  workingDir : String
  sessionId : String
  filesRead : List String

/-- Embeds `ToolContext.mark_file_read`. -/
def markFileRead (ctx : ToolContext) (p : String) : ToolContext :=
  { ctx with filesRead := List.insert p ctx.filesRead }

/-- Embeds `ToolContext.was_file_read`. -/
def wasFileRead (ctx : ToolContext) (p : String) : Bool := p ∈ ctx.filesRead

/-- Arguments of `read_file`. -/
structure ReadArgs where
  filePath : String
  offset : Nat := 0
  limit : Nat := 2000

/-- One formatted output line of `read_file`: `f"{i:6d}\t{content}"`
with lines over 2000 characters truncated. -/
def formatReadLine (i : Nat) (line : List Char) : String :=
  let content := pyRstrip (String.mk line)
  let content := if 2000 < strLen content then strTake content 2000 ++ "..."
    else content
  padNum 6 i ++ "\t" ++ content

/-- Join the formatted lines with newlines (Python `"\n".join`). -/
def joinLines (ls : List String) : String :=
  String.mk (List.intercalate ['\n'] (ls.map (·.data)))

/-- Embeds `read_file` (`src/tools/file_ops.py`, lines 22-70): resolve the
path, check existence and directory-ness, mark the file read, then
return the numbered, offset/limited, line-truncated listing. -/
def readFileT (fs : FileSys) (ctx : ToolContext) (a : ReadArgs) :
    String × ToolContext :=
  let path := resolveToolPath ctx.workingDir a.filePath
  if ¬ fsHasPath fs path then ("Error: File not found: " ++ path, ctx)
  else if fsIsDir fs path then
    ("Error: Path is a directory, not a file: " ++ path, ctx)
  else
    match fsLookup fs path with
    | none => ("Error: File not found: " ++ path, ctx)
    | some content =>
      let ctx' := markFileRead ctx path
      let lines := pyReadlines content
      let totalLines := lines.length
      let selected := (lines.drop a.offset).take a.limit
      let formatted := (selected.enumFrom (a.offset + 1)).map
        (fun p => formatReadLine p.1 p.2)
      let output := joinLines formatted
      let output := if a.offset + a.limit < totalLines then
        output ++ "\n\n[Showing lines " ++ toString (a.offset + 1) ++ "-" ++
          toString (a.offset + selected.length) ++ " of " ++
          toString totalLines ++ " total]"
        else output
      (output, ctx')

/-- Arguments of `write_file`. -/
structure WriteArgs where
  filePath : String
  content : String

/-- The read-before-overwrite rejection message of `write_file`. -/
def mustReadBeforeWrite : String :=
  "Error: Must read file before overwriting. Use read_file first."

/-- Embeds `write_file` (`src/tools/file_ops.py`, lines 73-99): reject
overwriting an existing path that was never read; otherwise create the
parent directories and write. -/
def writeFileT (fs : FileSys) (ctx : ToolContext) (a : WriteArgs) :
    String × FileSys × ToolContext :=
  let path := resolveToolPath ctx.workingDir a.filePath
  if fsHasPath fs path ∧ ¬ wasFileRead ctx path then
    (mustReadBeforeWrite, fs, ctx)
  else
    let dirPath := pyDirname path
    let fs := if dirPath ≠ "" then fsMakedirs fs dirPath else fs
    let fs := fsWrite fs path a.content
    ("Successfully wrote " ++ toString (strLen a.content) ++ " bytes to " ++
      path, fs, ctx)

/-- Arguments of `edit_file`. -/
structure EditArgs where
  filePath : String
  oldString : String
  newString : String
  replaceAll : Bool := false

/-- The read-before-edit rejection message of `edit_file`. -/
def mustReadBeforeEdit : String :=
  "Error: Must read file before editing. Use read_file first."

/-- Embeds `edit_file` (`src/tools/file_ops.py`, lines 102-155): require the
file to have been read, locate the occurrences of `old_string`, demand
uniqueness unless `replace_all`, and rewrite the file. -/
def editFileT (fs : FileSys) (ctx : ToolContext) (a : EditArgs) :
    String × FileSys × ToolContext :=
  let path := resolveToolPath ctx.workingDir a.filePath
  if ¬ wasFileRead ctx path then (mustReadBeforeEdit, fs, ctx)
  else if ¬ fsHasPath fs path then ("Error: File not found: " ++ path, fs, ctx)
  else
    match fsLookup fs path with
    | none =>
      -- opening a directory raises `IsADirectoryError`, caught as IOError;
      -- the host-supplied message text is environment-dependent
      ("Error reading file: not a regular file", fs, ctx)
    | some content =>
      let count := countOccur content a.oldString
      if count = 0 then
        let preview := if 50 < strLen a.oldString then
          strTake a.oldString 50 ++ "..." else a.oldString
        ("Error: old_string not found in file. Looking for: '" ++ preview ++
          "'", fs, ctx)
      else if 1 < count ∧ ¬ a.replaceAll then
        ("Error: old_string appears " ++ toString count ++
          " times. Use replace_all=true or provide more context to make it unique.",
          fs, ctx)
      else
        let newContent := if a.replaceAll then
          pyReplaceAll content a.oldString a.newString
          else pyReplaceFirst content a.oldString a.newString
        let replacedCount := if a.replaceAll then count else 1
        let fs := fsWrite fs path newContent
        ("Successfully edited " ++ path ++ " (" ++ toString replacedCount ++
          " replacement" ++ (if 1 < replacedCount then "s" else "") ++ ")",
          fs, ctx)

/-! ## ContextManager (`src/core/context_manager.py`)

Float usage ratios are modelled as exact rationals: estimated token
counts are integers and `MAX_TOKENS = 200_000`, so every comparison
against 0.80/0.90/0.95 that the code performs in IEEE doubles agrees
with the exact rational comparison (integer ratios step in units of
1/200000, far coarser than double rounding error).  The checkpoint file
is modelled as an in-state `Option`; the wall-clock timestamp the JSON
file also records is environment input and omitted. -/

/-- A structured content block, keeping the `"text"` and `"content"`
fields that `estimate_tokens` and `save_checkpoint` read. -/
structure MBlock where
  textF : String
  contentF : String

/-- Message content: a plain string or a list of blocks. -/
inductive MContent where
  | plain : String → MContent
  | blocks : List MBlock → MContent

/-- A conversation message. -/
structure Msg where
  role : String
  content : MContent

/-- Embeds `ContextManager.MAX_TOKENS`. -/
def MAX_TOKENS : Nat := 200000

/-- Embeds `ContextManager.estimate_tokens`: total characters over all textual
content, divided by 4. -/
def estimateTokensCM (messages : List Msg) : Nat :=
  (messages.foldl (fun acc m =>
    acc + match m.content with
      | .plain s => strLen s
      | .blocks bs => bs.foldl (fun a b => a + strLen b.textF + strLen b.contentF) 0)
    0) / 4

/-- Embeds `ContextManager.get_usage_percent` as an exact rational. -/
def usagePercent (messages : List Msg) : ℚ :=
  (estimateTokensCM messages : ℚ) / (MAX_TOKENS : ℚ)

/-- The persisted `ContextCheckpoint` record (minus the wall-clock
timestamp). -/
structure CMCheckpoint where
  contextUsagePercent : ℚ
  currentTask : String
  importantData : List (String × PVal)
  lastUserMessages : List String
  lastAssistantMessages : List String
  nextSteps : List String

/-- Python `" ".join`. -/
def joinWith (sep : String) (ls : List String) : String :=
  String.mk (List.intercalate sep.data (ls.map (·.data)))

/-- Flatten one message's content for checkpointing: a list of blocks
becomes the space-join of each block's `text` (or, when that is empty,
its `content`) — Python's `block.get("text", "") or block.get("content", "")`. -/
def flattenContent : MContent → String
  | .plain s => s
  | .blocks bs => joinWith " " (bs.map (fun b =>
      if b.textF ≠ "" then b.textF else b.contentF))

/-- Last `n` elements of a list (Python `l[-n:]` for `n > 0`). -/
def takeLast {α : Type} (n : Nat) (l : List α) : List α :=
  l.drop (l.length - n)

/-- Embeds `ContextManager.save_checkpoint` (`src/core/context_manager.py`,
lines 116-171) with its default arguments, as the record it persists:
the last three user and assistant messages, each flattened and capped
at 500 characters. -/
def mkCheckpoint (messages : List Msg) : CMCheckpoint :=
  let userMsgs := (messages.filter (·.role = "user")).map
    (fun m => strTake (flattenContent m.content) 500)
  let asstMsgs := (messages.filter (·.role = "assistant")).map
    (fun m => strTake (flattenContent m.content) 500)
  { contextUsagePercent := usagePercent messages,
    currentTask := "",
    importantData := [],
    lastUserMessages := takeLast 3 userMsgs,
    lastAssistantMessages := takeLast 3 asstMsgs,
    nextSteps := [] }

/-- The mutable state of a `ContextManager`: the monotone
`last_warning_level` and the checkpoint file's current content. -/
structure CMState where
  lastWarningLevel : Nat
  checkpointStore : Option CMCheckpoint

/-- A freshly constructed `ContextManager` (no warning yet, checkpoint
file absent). -/
def initCMState : CMState :=
  { lastWarningLevel := 0, checkpointStore := none }

/-- Embeds `ContextManager.check_and_warn` (`src/core/context_manager.py`,
lines 85-114): the 95/90/80 threshold ladder, each firing at most once
as tracked by `last_warning_level`; the 80% crossing also saves a
checkpoint. -/
def checkAndWarn (st : CMState) (messages : List Msg) :
    Option String × CMState :=
  let usage := usagePercent messages
  let tokens := estimateTokensCM messages
  if 0.95 ≤ usage then
    if st.lastWarningLevel < 95 then
      (some ("[!] Context at 95% (" ++ commaFmt tokens ++ "/" ++
        commaFmt MAX_TOKENS ++ " tokens). Compaction imminent!"),
       { st with lastWarningLevel := 95 })
    else (none, st)
  else if 0.90 ≤ usage then
    if st.lastWarningLevel < 90 then
      (some ("[!] Context at 90% (" ++ commaFmt tokens ++ "/" ++
        commaFmt MAX_TOKENS ++ " tokens). Approaching limit."),
       { st with lastWarningLevel := 90 })
    else (none, st)
  else if 0.80 ≤ usage then
    if st.lastWarningLevel < 80 then
      (some ("[i] Context at 80% (" ++ commaFmt tokens ++ "/" ++
        commaFmt MAX_TOKENS ++ " tokens). Checkpoint saved."),
       { lastWarningLevel := 80, checkpointStore := some (mkCheckpoint messages) })
    else (none, st)
  else (none, st)

/-- Embeds `ContextManager.load_checkpoint`: return the stored checkpoint, or
`none` when the file is missing (the malformed-JSON fail-soft branch
has no counterpart in the model, where storage is structured). -/
def loadCheckpoint (st : CMState) : Option CMCheckpoint :=
  st.checkpointStore

/-- The warning levels fired by a sequence of `check_and_warn` calls,
in order (each fired warning is identified by the level the state was
raised to). -/
def runWarnLevels (st : CMState) : List (List Msg) → List Nat
  | [] => []
  | ms :: rest =>
    let r := checkAndWarn st ms
    match r.1 with
    | some _ => r.2.lastWarningLevel :: runWarnLevels r.2 rest
    | none => runWarnLevels r.2 rest

/-- Which threshold band an estimated token count falls in
(0, 80, 90 or 95). -/
def bandOf (tokens : Nat) : Nat :=
  if (0.95 : ℚ) ≤ (tokens : ℚ) / (MAX_TOKENS : ℚ) then 95
  else if (0.90 : ℚ) ≤ (tokens : ℚ) / (MAX_TOKENS : ℚ) then 90
  else if (0.80 : ℚ) ≤ (tokens : ℚ) / (MAX_TOKENS : ℚ) then 80
  else 0

/-- The band sequence of a list of message snapshots. -/
def bandsOf (inputs : List (List Msg)) : List Nat :=
  inputs.map (fun ms => bandOf (estimateTokensCM ms))

/-- Pure recurrence for the fired warning levels: starting from warning
level `l`, a step in band `b` fires iff `80 ≤ b` and `l < b`, raising
the level to `b`. -/
def firedFrom (l : Nat) : List Nat → List Nat
  | [] => []
  | b :: rest =>
    if 80 ≤ b ∧ l < b then b :: firedFrom b rest
    else firedFrom l rest

/-! # Theorems -/

/-! ## General string lemmas -/

theorem strLen_append (a b : String) : strLen (a ++ b) = strLen a + strLen b := by
  simp [strLen, String.data_append]

theorem strTake_append_left (a b : String) (m : Nat) (h : strLen a = m) :
    strTake (a ++ b) m = a := by
  subst h
  simp only [strTake, String.data_append, strLen]
  rw [List.take_left]

theorem strLen_strTake (s : String) (m : Nat) :
    strLen (strTake s m) = min m (strLen s) := by
  simp [strLen, strTake]

theorem strLen_truncMarker_pos (k : Nat) : 0 < strLen (truncMarker k) := by
  have h : (0 : Nat) < strLen "\n\n... [OUTPUT TRUNCATED - " := by decide
  simp only [truncMarker, strLen_append]
  omega

/-! ## C8: output truncation -/

/-- C8: `truncate_output` hard-caps the retained output at the given
maximum, appending a notice of how many bytes were omitted, and is
idempotent up to the truncation marker: re-truncating an
already-truncated result with the same limit keeps the capped content
unchanged and only rewrites the appended marker. -/
theorem C8_truncateOutput_cap_idempotent (s : String) (m cfg : Nat)
    (hm : m ≠ 0) :
    (strLen s ≤ m → truncateOutputPy s (some m) cfg = (s, false)) ∧
    (m < strLen s →
      truncateOutputPy s (some m) cfg =
        (strTake s m ++ truncMarker (strLen s - m), true) ∧
      (truncateOutputPy (strTake s m ++ truncMarker (strLen s - m)) (some m)
          cfg).1 =
        strTake s m ++ truncMarker (strLen (truncMarker (strLen s - m))) ∧
      strTake (truncateOutputPy (strTake s m ++ truncMarker (strLen s - m))
          (some m) cfg).1 m = strTake s m) := by
  have hres : resolveMaxSize (some m) cfg = m := by
    simp [resolveMaxSize]
    intro h
    exact absurd h hm
  constructor
  · intro hle
    simp [truncateOutputPy, hres, truncateOutput, hle]
  · intro hlt
    have hcap : strLen (strTake s m) = m := by
      rw [strLen_strTake]
      omega
    have hnle : ¬ strLen s ≤ m := by omega
    have hfst : truncateOutputPy s (some m) cfg =
        (strTake s m ++ truncMarker (strLen s - m), true) := by
      simp [truncateOutputPy, hres, truncateOutput, hnle]
    have hlen2 : strLen (strTake s m ++ truncMarker (strLen s - m)) =
        m + strLen (truncMarker (strLen s - m)) := by
      rw [strLen_append, hcap]
    have hmark := strLen_truncMarker_pos (strLen s - m)
    have hnotle : ¬ strLen (strTake s m ++ truncMarker (strLen s - m)) ≤ m := by
      omega
    have hsnd : truncateOutputPy (strTake s m ++ truncMarker (strLen s - m))
        (some m) cfg =
        (strTake (strTake s m ++ truncMarker (strLen s - m)) m ++
          truncMarker (strLen (strTake s m ++ truncMarker (strLen s - m)) - m),
          true) := by
      simp [truncateOutputPy, hres, truncateOutput, hnotle]
    have htake : strTake (strTake s m ++ truncMarker (strLen s - m)) m =
        strTake s m := strTake_append_left _ _ _ hcap
    refine ⟨hfst, ?_, ?_⟩
    · rw [hsnd]
      simp only [htake, hlen2]
      congr 2
      omega
    · rw [hsnd]
      simp only [htake]
      exact strTake_append_left _ _ _ hcap

/-- Witness for C8 at a concrete input. -/
theorem C8_truncateOutput_cap_idempotent_witness :
    (3 : Nat) ≠ 0 ∧ (3 : Nat) < strLen "abcdef" ∧
    truncateOutputPy "abcdef" (some 3) 1000 =
      (strTake "abcdef" 3 ++ truncMarker (strLen "abcdef" - 3), true) :=
  ⟨by decide, by decide,
    ((C8_truncateOutput_cap_idempotent "abcdef" 3 1000 (by decide)).2
      (by decide)).1⟩

/-! ## C6: validate_path -/

theorem partsScan_isSome (path : String) (full l : List (List Char))
    (h : ∃ part ∈ l,
      (['.', 'e', 'n', 'v'].isPrefixOf part) ∨
      ((part = ['.', 'a', 'w', 's'] ∨ part = ['.', 's', 's', 'h']) ∧
        full.indexOf part + 1 < full.length)) :
    (partsScan path full l).isSome := by
  induction l with
  | nil => simp at h
  | cons head tail ih =>
    by_cases henv : (['.', 'e', 'n', 'v'].isPrefixOf head : Bool)
    · simp [partsScan, henv]
    · by_cases hcred : (head = ['.', 'a', 'w', 's'] ∨ head = ['.', 's', 's', 'h']) ∧
          full.indexOf head + 1 < full.length
      · simp [partsScan, henv, hcred]
      · have h' : ∃ part ∈ tail,
            (['.', 'e', 'n', 'v'].isPrefixOf part) ∨
            ((part = ['.', 'a', 'w', 's'] ∨ part = ['.', 's', 's', 'h']) ∧
              full.indexOf part + 1 < full.length) := by
          rcases h with ⟨part, hmem, hpart⟩
          rcases List.mem_cons.mp hmem with heq | hmem'
          · subst heq
            rcases hpart with he | hc
            · exact absurd he (by simpa using henv)
            · exact absurd hc hcred
          · exact ⟨part, hmem', hpart⟩
        simp only [partsScan]
        rw [if_neg (by simpa using henv), if_neg hcred]
        exact ih h'

/-- C6 (amended): `validate_path` rejects every path whose syntactic
resolution leaves the workspace root; it also rejects any resolved
target whose filename is in the sensitive-file list, whose resolved
path contains a `.env`-prefixed segment, or whose resolved path
contains a `.aws` or `.ssh` segment that is followed by at least one
further segment — a `.aws`/`.ssh` segment in final position is allowed
(see the counterexample). -/
theorem C6_validatePath_rejections (workspaceRoot path : String) :
    (¬ (pathParts (pyNormpath workspaceRoot)).isPrefixOf
        (pathParts (resolvedPathSec workspaceRoot path)) →
      (validatePath workspaceRoot path).1 = false) ∧
    (String.mk (pathName (resolvedPathSec workspaceRoot path)) ∈
        SENSITIVE_FILES →
      (validatePath workspaceRoot path).1 = false) ∧
    ((∃ part ∈ pathParts (resolvedPathSec workspaceRoot path),
        ['.', 'e', 'n', 'v'].isPrefixOf part) →
      (validatePath workspaceRoot path).1 = false) ∧
    ((∃ part ∈ pathParts (resolvedPathSec workspaceRoot path),
        (part = ['.', 'a', 'w', 's'] ∨ part = ['.', 's', 's', 'h']) ∧
        (pathParts (resolvedPathSec workspaceRoot path)).indexOf part + 1 <
          (pathParts (resolvedPathSec workspaceRoot path)).length) →
      (validatePath workspaceRoot path).1 = false) := by
  refine ⟨?_, ?_, ?_, ?_⟩
  · intro h
    simp [validatePath, h]
  · intro h
    by_cases hin : ¬ (pathParts (pyNormpath workspaceRoot)).isPrefixOf
        (pathParts (resolvedPathSec workspaceRoot path))
    · simp [validatePath, hin]
    · simp only [validatePath, if_pos hin, if_neg hin]
      rw [if_pos h]
  · intro h
    by_cases hin : ¬ (pathParts (pyNormpath workspaceRoot)).isPrefixOf
        (pathParts (resolvedPathSec workspaceRoot path))
    · simp [validatePath, hin]
    · have hscan := partsScan_isSome path
        (pathParts (resolvedPathSec workspaceRoot path))
        (pathParts (resolvedPathSec workspaceRoot path))
        (by rcases h with ⟨part, hmem, hp⟩; exact ⟨part, hmem, Or.inl hp⟩)
      simp only [validatePath, if_neg hin]
      by_cases hf : String.mk (pathName (resolvedPathSec workspaceRoot path)) ∈
          SENSITIVE_FILES
      · rw [if_pos hf]
      · rw [if_neg hf]
        rcases Option.isSome_iff_exists.mp hscan with ⟨reason, hr⟩
        rw [hr]
  · intro h
    by_cases hin : ¬ (pathParts (pyNormpath workspaceRoot)).isPrefixOf
        (pathParts (resolvedPathSec workspaceRoot path))
    · simp [validatePath, hin]
    · have hscan := partsScan_isSome path
        (pathParts (resolvedPathSec workspaceRoot path))
        (pathParts (resolvedPathSec workspaceRoot path))
        (by rcases h with ⟨part, hmem, hp⟩; exact ⟨part, hmem, Or.inr hp⟩)
      simp only [validatePath, if_neg hin]
      by_cases hf : String.mk (pathName (resolvedPathSec workspaceRoot path)) ∈
          SENSITIVE_FILES
      · rw [if_pos hf]
      · rw [if_neg hf]
        rcases Option.isSome_iff_exists.mp hscan with ⟨reason, hr⟩
        rw [hr]

/-- Witness for C6 (amended) at concrete inputs: a traversal outside
the workspace, a sensitive filename, a `.env` segment, and a non-final
`.aws` segment are each rejected. -/
theorem C6_validatePath_rejections_witness :
    (validatePath "/ws" "../../etc/passwd").1 = false ∧
    (validatePath "/ws" ".env.local").1 = false ∧
    (validatePath "/ws" "sub/.env").1 = false ∧
    (validatePath "/ws" "/ws/.aws/credentials").1 = false :=
  ⟨(C6_validatePath_rejections "/ws" "../../etc/passwd").1 (by decide),
   (C6_validatePath_rejections "/ws" ".env.local").2.1 (by decide),
   (C6_validatePath_rejections "/ws" "sub/.env").2.2.1 (by decide),
   (C6_validatePath_rejections "/ws" "/ws/.aws/credentials").2.2.2 (by decide)⟩

/-- Counterexample to C6 as stated: the resolved path `/ws/.aws`
contains a `.aws` path segment, yet `validate_path` accepts it — the
credentials-directory check only fires when a further segment follows
the (first) `.aws`/`.ssh` segment. -/
theorem C6_validatePath_counterexample :
    validatePath "/ws" "/ws/.aws" = (true, "OK") ∧
    ['.', 'a', 'w', 's'] ∈ pathParts (resolvedPathSec "/ws" "/ws/.aws") := by
  constructor
  · decide
  · decide

/-! ## C7: parameter sanitization -/

theorem strCapOkB_marker (mid tail : String)
    (htail : tail.data.getLast? = some ']') :
    strCapOkB ("[" ++ mid ++ tail) = true := by
  have hshape : isSizeMarkerB ("[" ++ mid ++ tail) = true := by
    simp only [isSizeMarkerB, String.data_append, decide_eq_true_eq]
    constructor
    · rfl
    · rw [List.getLast?_append, List.getLast?_append, htail]
      rfl
  simp [strCapOkB, hshape]

theorem dictSanitized_sanitizeParams :
    ∀ p : List (String × PVal), dictSanitizedB (sanitizeParams p) = true
  | [] => by rw [sanitizeParams.eq_def, dictSanitizedB.eq_def]
  | (k, v) :: rest => by
    have hrest := dictSanitized_sanitizeParams rest
    rw [sanitizeParams.eq_def]
    by_cases hk : isSensitiveKeyB k
    · simp only [hk, if_pos]
      rw [dictSanitizedB.eq_def]
      simp [hk, isRedactedB, hrest]
    · cases v with
      | str s =>
        by_cases hlong : 1000 < strLen s
        · have hmark := strCapOkB_marker (toString (strLen s)) " chars]"
            (by decide)
          rw [dictSanitizedB.eq_def]
          simp [hk, hlong, hrest, hmark, dictSanitizedValB]
        · rw [dictSanitizedB.eq_def]
          simp [hk, hlong, hrest, dictSanitizedValB, strCapOkB]
          omega
      | dict m =>
        have hm := dictSanitized_sanitizeParams m
        rw [dictSanitizedB.eq_def]
        simp [hk, hrest, hm, dictSanitizedValB]
      | vlist l =>
        by_cases hlong : 10 < l.length
        · have hmark := strCapOkB_marker (toString l.length) " items]"
            (by decide)
          rw [dictSanitizedB.eq_def]
          simp [hk, hlong, hrest, hmark, dictSanitizedValB]
        · rw [dictSanitizedB.eq_def]
          simp [hk, hlong, hrest, dictSanitizedValB]
          omega
      | other =>
        rw [dictSanitizedB.eq_def]
        simp [hk, hrest, dictSanitizedValB]

/-- C7 (amended): the parameters stored by `_sanitize_params` satisfy
the sanitization rules along every chain of nested dict values:
sensitive keys are redacted regardless of value, over-long strings and
lists are replaced by size markers, and nested dicts are sanitized
recursively — but the elements of a retained (short) list are stored
as-is and are not themselves sanitized. -/
theorem C7_sanitizeParams_dict_descent (p : List (String × PVal)) :
    dictSanitizedB (sanitizeParams p) = true :=
  dictSanitized_sanitizeParams p

/-- Counterexample to C7 as stated: a dict nested inside a short list
is stored without sanitization, so the claim's "nested maps at any
nesting depth are sanitized" fails — here an inner `"password"` value
survives unredacted. -/
theorem C7_sanitizeParams_counterexample :
    deepSanitizedB (sanitizeParams
      [("a", .vlist [.dict [("password", .str "hunter2")]])]) = false := by
  have h1 : isSensitiveKeyB "password" = true := by decide
  have h2 : isSensitiveKeyB "a" = false := by decide
  simp [sanitizeParams, deepSanitizedB, deepSanitizedValB, deepSanitizedListB,
    isRedactedB, h1, h2]

/-! ## C3: doom-loop detection -/

theorem detectDoomLoop_iff (hist : List (String × String)) (thr : Nat)
    (calls : List ToolCallM) :
    detectDoomLoop hist thr calls = true ↔
      ∃ tc ∈ calls, thr ≤ historyCount hist tc := by
  unfold detectDoomLoop
  by_cases hlen : hist.length < thr
  · simp only [if_pos hlen, Bool.false_eq_true, false_iff]
    rintro ⟨tc, _, hcount⟩
    have hle := List.countP_le_length
      (fun h => decide (h = (tc.name, tc.input))) (l := hist)
    simp only [historyCount] at hcount
    omega
  · simp only [if_neg hlen, List.any_eq_true, decide_eq_true_eq]

/-- C3: the agent loop declares a doom loop for a proposed set of tool
calls exactly when some proposed call's `(tool name, stringified args)`
key already occurs at least `doom_threshold` times among the previously
executed calls in the capacity-10 tool-history ring buffer; when it
fires, the whole turn stops and none of the proposed calls is executed
(no results are produced and the ring buffer is untouched); when every
key occurs fewer than `threshold` times, detection never triggers. -/
theorem C3_doomLoop_threshold (findTool : String → Option Bool)
    (onApproval : Option (String → String → Bool))
    (execF : ToolCallM → String) (hist : List (String × String))
    (thr : Nat) (calls : List ToolCallM) :
    ((processTurn findTool onApproval execF hist thr calls).doomStopped = true ↔
      ∃ tc ∈ calls, thr ≤ historyCount hist tc) ∧
    ((processTurn findTool onApproval execF hist thr calls).doomStopped = true →
      (processTurn findTool onApproval execF hist thr calls).results = [] ∧
      (processTurn findTool onApproval execF hist thr calls).newHist = hist) := by
  by_cases hdet : detectDoomLoop hist thr calls = true
  · have hp : processTurn findTool onApproval execF hist thr calls =
        { doomStopped := true, results := [], newHist := hist } := by
      simp [processTurn, hdet]
    rw [hp]
    exact ⟨by simpa [hdet] using detectDoomLoop_iff hist thr calls,
      fun _ => ⟨rfl, rfl⟩⟩
  · rcases hrun : runCalls findTool onApproval execF calls [] hist with ⟨r, h2⟩
    have hp : processTurn findTool onApproval execF hist thr calls =
        { doomStopped := false, results := r, newHist := h2 } := by
      simp [processTurn, hdet, hrun]
    rw [hp]
    refine ⟨?_, by simp⟩
    simp only [Bool.false_eq_true, false_iff]
    intro hex
    exact hdet ((detectDoomLoop_iff hist thr calls).mpr hex)

/-- Witness for C3 at concrete inputs: three identical prior executions
trip the detector at threshold 3 and the turn executes nothing. -/
theorem C3_doomLoop_threshold_witness :
    (processTurn (fun _ => none) none (fun _ => "out")
        [("g", "a"), ("g", "a"), ("g", "a")] 3
        [⟨"id1", "g", "a"⟩]).doomStopped = true ∧
    (processTurn (fun _ => none) none (fun _ => "out")
        [("g", "a"), ("g", "a"), ("g", "a")] 3
        [⟨"id1", "g", "a"⟩]).results = [] ∧
    (processTurn (fun _ => none) none (fun _ => "out")
        [("g", "a"), ("g", "a"), ("g", "a")] 3
        [⟨"id1", "g", "a"⟩]).newHist = [("g", "a"), ("g", "a"), ("g", "a")] :=
  have h := C3_doomLoop_threshold (fun _ => none) none (fun _ => "out")
    [("g", "a"), ("g", "a"), ("g", "a")] 3 [⟨"id1", "g", "a"⟩]
  have hstop := h.1.mpr ⟨⟨"id1", "g", "a"⟩, by simp, by decide⟩
  ⟨hstop, (h.2 hstop).1, (h.2 hstop).2⟩

/-! ## C10: wildcard always-deny patterns -/

theorem patternOf_eq_wildcard_iff (t g : String) :
    patternOf t g = patternOf t "*" ↔ g = "*" := by
  constructor
  · intro h
    have hd := congrArg String.data h
    simp only [patternOf, String.data_append] at hd
    have h2 := List.append_cancel_left hd
    exact String.ext (by simpa using h2)
  · intro h
    rw [h]

/-- C10: `always_deny(t)` with the default target records the wildcard
pattern `t:*`, and `check_permission` matches the always-denied set
only against the exact `tool:target` string of the current call — so
for any concrete target `g ≠ "*"`, the wildcard entry neither makes
the concrete pattern a member of the deny set nor changes the
decision, the callback invocation, or the audit logging of the call. -/
theorem C10_wildcard_deny_no_match (st : PermState) (aud : Bool)
    (cb : Option (PermissionRequest → PermissionResult))
    (ts sid t g : String) (ctxp : Option (List (String × String)))
    (hg : g ≠ "*") :
    (patternOf t g ∈ (alwaysDeny st t).alwaysDenied ↔
      patternOf t g ∈ st.alwaysDenied) ∧
    (checkPermission (alwaysDeny st t) aud cb ts sid t g ctxp).res =
      (checkPermission st aud cb ts sid t g ctxp).res ∧
    (checkPermission (alwaysDeny st t) aud cb ts sid t g ctxp).asked =
      (checkPermission st aud cb ts sid t g ctxp).asked ∧
    (checkPermission (alwaysDeny st t) aud cb ts sid t g ctxp).logged =
      (checkPermission st aud cb ts sid t g ctxp).logged := by
  have hne : patternOf t g ≠ patternOf t "*" := by
    intro h
    exact hg ((patternOf_eq_wildcard_iff t g).mp h)
  have hmemiff : patternOf t g ∈ (alwaysDeny st t).alwaysDenied ↔
      patternOf t g ∈ st.alwaysDenied := by
    simp only [alwaysDeny]
    rw [List.mem_insert_iff]
    simp [hne]
  refine ⟨hmemiff, ?_⟩
  by_cases hmem : patternOf t g ∈ st.alwaysDenied
  · have hmem' : patternOf t g ∈ (alwaysDeny st t).alwaysDenied :=
      hmemiff.mpr hmem
    simp [checkPermission, hmem, hmem']
  · have hmem' : patternOf t g ∉ (alwaysDeny st t).alwaysDenied := fun h =>
      hmem (hmemiff.mp h)
    have hAS : approvalsOf (alwaysDeny st t) sid = approvalsOf st sid := rfl
    have hAA : (alwaysDeny st t).alwaysApproved = st.alwaysApproved := rfl
    cases hcb : cb <;> cases hr : ruleFor t <;>
      by_cases happ : patternOf t g ∈ st.alwaysApproved <;>
      by_cases hses : patternOf t g ∈ approvalsOf st sid <;>
      by_cases hwild : patternOf t "*" ∈ approvalsOf st sid <;>
      simp [checkPermission, hr, happ, hses, hwild, hmem, hmem', hAS, hAA]

/-- Witness for C10 at concrete inputs. -/
theorem C10_wildcard_deny_no_match_witness :
    ("ls" : String) ≠ "*" ∧
    (patternOf "bash" "ls" ∈
        (alwaysDeny ⟨[], [], []⟩ "bash").alwaysDenied ↔
      patternOf "bash" "ls" ∈ PermState.alwaysDenied ⟨[], [], []⟩) :=
  ⟨by decide,
    (C10_wildcard_deny_no_match ⟨[], [], []⟩ true none "ts" "s1" "bash" "ls"
      none (by decide)).1⟩

/-! ## C1: check_permission resolution order -/

theorem find?_map_update (sid pat : String) :
    ∀ l : List (String × List String),
      (l.map (fun kv => if kv.1 = sid then (kv.1, List.insert pat kv.2)
        else kv)).find? (·.1 = sid) =
      (l.find? (·.1 = sid)).map (fun kv => (kv.1, List.insert pat kv.2)) := by
  intro l
  induction l with
  | nil => rfl
  | cons kv rest ih =>
    by_cases hk : kv.1 = sid
    · simp [List.find?_cons, hk]
    · simp [List.find?_cons, hk, ih]

theorem approvalsOf_remember_true (st : PermState) (sid pat : String) :
    approvalsOf (rememberDecision st sid pat true) sid =
      List.insert pat (approvalsOf st sid) := by
  unfold rememberDecision
  by_cases hf : (st.sessionApprovals.find? (·.1 = sid)).isSome
  · simp only [if_pos hf, if_pos trivial]
    rcases Option.isSome_iff_exists.mp hf with ⟨kv, hkv⟩
    unfold approvalsOf
    rw [find?_map_update]
    simp [hkv]
  · simp only [if_neg hf, if_pos trivial]
    rcases Option.not_isSome_iff_eq_none.mp hf with hnone
    simp [approvalsOf, List.find?_cons, hnone]

theorem mem_alwaysDenied_remember_false (st : PermState) (sid pat : String) :
    pat ∈ (rememberDecision st sid pat false).alwaysDenied := by
  simp [rememberDecision, List.mem_insert_iff]

/-- C1: `check_permission` resolves in the spec's first-match-wins
order.  With `pat := tool ++ ":" ++ target`: (1) `pat` in the
always-denied set denies and logs without asking; (2) else a static
ALLOW rule allows unconditionally; (3) else a static DENY rule denies
and logs; (4) else `pat` in the global always-allow set allows; (5)
else under ASK_ONCE a remembered exact or wildcard pattern for this
session allows without invoking the callback (a different session id
with no remembered pattern falls through to the callback, covered by
(6) since the session id is universally quantified); (6) else a
configured callback is invoked, its decision is returned and logged,
and a remembered decision lands in the session's approval set when
allowed or in the global deny set when denied; (7) with no callback the
result is a deny, never an allow. -/
theorem C1_checkPermission_resolution_order (st : PermState) (aud : Bool)
    (cb : Option (PermissionRequest → PermissionResult))
    (ts sid tool target : String) (ctxp : Option (List (String × String))) :
    (patternOf tool target ∈ st.alwaysDenied →
      (checkPermission st aud cb ts sid tool target ctxp).res =
        ⟨false, "Always denied", false⟩ ∧
      (checkPermission st aud cb ts sid tool target ctxp).asked = false ∧
      (aud = true →
        (checkPermission st aud cb ts sid tool target ctxp).logged =
          [logDecisionCall ts sid tool target false "Always denied"])) ∧
    (patternOf tool target ∉ st.alwaysDenied → ruleFor tool = .ALLOW →
      (checkPermission st aud cb ts sid tool target ctxp).res =
        ⟨true, "Tool always allowed", false⟩ ∧
      (checkPermission st aud cb ts sid tool target ctxp).asked = false) ∧
    (patternOf tool target ∉ st.alwaysDenied → ruleFor tool = .DENY →
      (checkPermission st aud cb ts sid tool target ctxp).res =
        ⟨false, "Tool not permitted", false⟩ ∧
      (checkPermission st aud cb ts sid tool target ctxp).asked = false ∧
      (aud = true →
        (checkPermission st aud cb ts sid tool target ctxp).logged =
          [logDecisionCall ts sid tool target false "Denied by rule"])) ∧
    (patternOf tool target ∉ st.alwaysDenied → ruleFor tool ≠ .ALLOW →
      ruleFor tool ≠ .DENY → patternOf tool target ∈ st.alwaysApproved →
      (checkPermission st aud cb ts sid tool target ctxp).res =
        ⟨true, "Always approved", false⟩ ∧
      (checkPermission st aud cb ts sid tool target ctxp).asked = false) ∧
    (patternOf tool target ∉ st.alwaysDenied → ruleFor tool = .ASK_ONCE →
      patternOf tool target ∉ st.alwaysApproved →
      (patternOf tool target ∈ approvalsOf st sid ∨
        patternOf tool "*" ∈ approvalsOf st sid) →
      (checkPermission st aud cb ts sid tool target ctxp).res.allowed = true ∧
      (checkPermission st aud cb ts sid tool target ctxp).asked = false) ∧
    (∀ f, patternOf tool target ∉ st.alwaysDenied → ruleFor tool ≠ .ALLOW →
      ruleFor tool ≠ .DENY → patternOf tool target ∉ st.alwaysApproved →
      (ruleFor tool = .ASK_ONCE →
        patternOf tool target ∉ approvalsOf st sid ∧
        patternOf tool "*" ∉ approvalsOf st sid) →
      cb = some f →
      (checkPermission st aud cb ts sid tool target ctxp).asked = true ∧
      (checkPermission st aud cb ts sid tool target ctxp).res =
        f ⟨tool, operationOf ctxp, target, assessRisk tool target⟩ ∧
      (aud = true →
        (checkPermission st aud cb ts sid tool target ctxp).logged =
          [logDecisionCall ts sid tool target
            (f ⟨tool, operationOf ctxp, target, assessRisk tool target⟩).allowed
            (f ⟨tool, operationOf ctxp, target, assessRisk tool target⟩).reason]) ∧
      ((f ⟨tool, operationOf ctxp, target, assessRisk tool target⟩).remember =
          true →
        ((f ⟨tool, operationOf ctxp, target, assessRisk tool target⟩).allowed =
            true →
          patternOf tool target ∈ approvalsOf
            (checkPermission st aud cb ts sid tool target ctxp).st sid) ∧
        ((f ⟨tool, operationOf ctxp, target, assessRisk tool target⟩).allowed =
            false →
          patternOf tool target ∈
            (checkPermission st aud cb ts sid tool target ctxp).st.alwaysDenied))) ∧
    (patternOf tool target ∉ st.alwaysDenied → ruleFor tool ≠ .ALLOW →
      ruleFor tool ≠ .DENY → patternOf tool target ∉ st.alwaysApproved →
      (ruleFor tool = .ASK_ONCE →
        patternOf tool target ∉ approvalsOf st sid ∧
        patternOf tool "*" ∉ approvalsOf st sid) →
      cb = none →
      (checkPermission st aud cb ts sid tool target ctxp).res =
        ⟨false, "No permission handler configured", false⟩ ∧
      (checkPermission st aud cb ts sid tool target ctxp).asked = false) := by
  refine ⟨?_, ?_, ?_, ?_, ?_, ?_, ?_⟩
  · intro hmem
    simp [checkPermission, hmem]
  · intro hmem hr
    simp [checkPermission, hmem, hr]
  · intro hmem hr
    simp [checkPermission, hmem, hr]
  · intro hmem ha hd happ
    cases hr : ruleFor tool with
    | ALLOW => exact absurd hr ha
    | DENY => exact absurd hr hd
    | ASK => simp [checkPermission, hmem, hr, happ]
    | ASK_ONCE => simp [checkPermission, hmem, hr, happ]
  · intro hmem hr happ hses
    rcases hses with hses | hses
    · simp [checkPermission, hmem, hr, happ, hses]
    · by_cases hexact : patternOf tool target ∈ approvalsOf st sid
      · simp [checkPermission, hmem, hr, happ, hexact]
      · simp [checkPermission, hmem, hr, happ, hexact, hses]
  · intro f hmem ha hd happ hask hcb
    have hbranch : ∀ hses hwild,
        (ruleFor tool = .ASK_ONCE → hses = (False : Prop) ∧ hwild = False) →
        True := fun _ _ _ => trivial
    cases hr : ruleFor tool with
    | ALLOW => exact absurd hr ha
    | DENY => exact absurd hr hd
    | ASK =>
      refine ?_
      have hout : checkPermission st aud cb ts sid tool target ctxp =
          { res := f ⟨tool, operationOf ctxp, target, assessRisk tool target⟩,
            st := if (f ⟨tool, operationOf ctxp, target,
                assessRisk tool target⟩).remember then
              rememberDecision st sid (patternOf tool target)
                (f ⟨tool, operationOf ctxp, target,
                  assessRisk tool target⟩).allowed else st,
            logged := if aud then
              [logDecisionCall ts sid tool target
                (f ⟨tool, operationOf ctxp, target,
                  assessRisk tool target⟩).allowed
                (f ⟨tool, operationOf ctxp, target,
                  assessRisk tool target⟩).reason] else [],
            asked := true } := by
        simp [checkPermission, hmem, hr, happ, hcb]
      refine ⟨by rw [hout], by rw [hout], by intro haud; rw [hout]; simp [haud],
        ?_⟩
      intro hrem
      constructor
      · intro hallow
        rw [hout]
        simp only [hrem, if_pos trivial, hallow]
        rw [approvalsOf_remember_true]
        exact List.mem_insert_iff.mpr (Or.inl rfl)
      · intro hallow
        rw [hout]
        simp only [hrem, if_pos trivial, hallow]
        exact mem_alwaysDenied_remember_false st sid (patternOf tool target)
    | ASK_ONCE =>
      rcases hask hr with ⟨hses, hwild⟩
      have hout : checkPermission st aud cb ts sid tool target ctxp =
          { res := f ⟨tool, operationOf ctxp, target, assessRisk tool target⟩,
            st := if (f ⟨tool, operationOf ctxp, target,
                assessRisk tool target⟩).remember then
              rememberDecision st sid (patternOf tool target)
                (f ⟨tool, operationOf ctxp, target,
                  assessRisk tool target⟩).allowed else st,
            logged := if aud then
              [logDecisionCall ts sid tool target
                (f ⟨tool, operationOf ctxp, target,
                  assessRisk tool target⟩).allowed
                (f ⟨tool, operationOf ctxp, target,
                  assessRisk tool target⟩).reason] else [],
            asked := true } := by
        simp [checkPermission, hmem, hr, happ, hses, hwild, hcb]
      refine ⟨by rw [hout], by rw [hout], by intro haud; rw [hout]; simp [haud],
        ?_⟩
      intro hrem
      constructor
      · intro hallow
        rw [hout]
        simp only [hrem, if_pos trivial, hallow]
        rw [approvalsOf_remember_true]
        exact List.mem_insert_iff.mpr (Or.inl rfl)
      · intro hallow
        rw [hout]
        simp only [hrem, if_pos trivial, hallow]
        exact mem_alwaysDenied_remember_false st sid (patternOf tool target)
  · intro hmem ha hd happ hask hcb
    cases hr : ruleFor tool with
    | ALLOW => exact absurd hr ha
    | DENY => exact absurd hr hd
    | ASK => simp [checkPermission, hmem, hr, happ, hcb]
    | ASK_ONCE =>
      rcases hask hr with ⟨hses, hwild⟩
      simp [checkPermission, hmem, hr, happ, hses, hwild, hcb]

/-- Witness for C1 at concrete inputs: an always-denied pattern denies;
a remembered ASK_ONCE pattern allows without asking in its own session;
the same pattern in a different session invokes the callback; and with
no callback configured the result is a deny. -/
theorem C1_checkPermission_resolution_order_witness :
    (checkPermission ⟨[("s1", ["write_file:a.txt"])], [], ["bash:rm"]⟩ true none
      "ts" "s1" "bash" "rm" none).res =
      ⟨false, "Always denied", false⟩ ∧
    (checkPermission ⟨[("s1", ["write_file:a.txt"])], [], ["bash:rm"]⟩ true none
      "ts" "s1" "write_file" "a.txt" none).res.allowed = true ∧
    (checkPermission ⟨[("s1", ["write_file:a.txt"])], [], ["bash:rm"]⟩ true none
      "ts" "s1" "write_file" "a.txt" none).asked = false ∧
    (checkPermission ⟨[("s1", ["write_file:a.txt"])], [], ["bash:rm"]⟩ true
      (some (fun _ => ⟨true, "ok", true⟩)) "ts" "s2" "write_file" "a.txt"
      none).asked = true ∧
    (checkPermission ⟨[("s1", ["write_file:a.txt"])], [], ["bash:rm"]⟩ true none
      "ts" "s2" "write_file" "a.txt" none).res =
      ⟨false, "No permission handler configured", false⟩ :=
  ⟨((C1_checkPermission_resolution_order ⟨[("s1", ["write_file:a.txt"])], [],
      ["bash:rm"]⟩ true none "ts" "s1" "bash" "rm" none).1 (by decide)).1,
   ((C1_checkPermission_resolution_order ⟨[("s1", ["write_file:a.txt"])], [],
      ["bash:rm"]⟩ true none "ts" "s1" "write_file" "a.txt" none).2.2.2.2.1
      (by decide) (by decide) (by decide) (Or.inl (by decide))).1,
   ((C1_checkPermission_resolution_order ⟨[("s1", ["write_file:a.txt"])], [],
      ["bash:rm"]⟩ true none "ts" "s1" "write_file" "a.txt" none).2.2.2.2.1
      (by decide) (by decide) (by decide) (Or.inl (by decide))).2,
   ((C1_checkPermission_resolution_order ⟨[("s1", ["write_file:a.txt"])], [],
      ["bash:rm"]⟩ true (some (fun _ => ⟨true, "ok", true⟩)) "ts" "s2"
      "write_file" "a.txt" none).2.2.2.2.2.1 (fun _ => ⟨true, "ok", true⟩)
      (by decide) (by decide) (by decide) (by decide)
      (fun _ => ⟨by decide, by decide⟩) rfl).1,
   ((C1_checkPermission_resolution_order ⟨[("s1", ["write_file:a.txt"])], [],
      ["bash:rm"]⟩ true none "ts" "s2" "write_file" "a.txt" none).2.2.2.2.2.2
      (by decide) (by decide) (by decide) (by decide)
      (fun _ => ⟨by decide, by decide⟩) rfl).1⟩

/-! ## C2: dispatcher audit logging -/

/-- C2 (amended): in `ToolRegistry.execute`, an unknown tool name and a
security-validation rejection short-circuit with an error string and
produce no audit entry at all; every attempt that reaches tool logic
(with an audit logger attached) produces at least one entry, beginning
with a `tool_call` entry whose raw parameter snapshot is the argument
dict and whose stored form is sanitized by the logger.  (Permission
denial is handled in the agent loop before the dispatcher is called.) -/
theorem C2_registryExecute_logging (registry : List RTool)
    (env : DispatchCtx) (ts name : String) (args : List (String × String)) :
    (registry.find? (·.name = name) = none →
      registryExecute registry env ts name args =
        ("Error: Unknown tool '" ++ name ++ "'", [])) ∧
    (∀ tool sec msg, registry.find? (·.name = name) = some tool →
      env.security = some sec → securityScreen sec args = some msg →
      registryExecute registry env ts name args =
        ("Security Error: " ++ msg, [])) ∧
    (∀ tool, registry.find? (·.name = name) = some tool →
      env.auditAttached = true →
      (∀ sec, env.security = some sec → securityScreen sec args = none) →
      1 ≤ (registryExecute registry env ts name args).2.length ∧
      (registryExecute registry env ts name args).2.head? =
        some { ts := ts, sessionId := env.sessionId, action := "tool_call",
               toolName := some name, parameters := pvalArgs args,
               resultSummary := "executing...", userApproved := true } ∧
      (∀ h store,
        (auditLog h store
          { ts := ts, sessionId := env.sessionId, action := "tool_call",
            toolName := some name, parameters := pvalArgs args,
            resultSummary := "executing...", userApproved := true }).getLast? =
        some (mkAuditEntry h ts env.sessionId "tool_call" (some name)
          (sanitizeParams (pvalArgs args)) (strTake "executing..." 500)
          true))) := by
  refine ⟨?_, ?_, ?_⟩
  · intro hfind
    simp [registryExecute, hfind]
  · intro tool sec msg hfind hsec hscreen
    simp [registryExecute, hfind, hsec, hscreen]
  · intro tool hfind haud hscreen
    have hs : (match env.security with
        | some sec => securityScreen sec args
        | none => none) = none := by
      cases hsec : env.security with
      | none => rfl
      | some sec => exact hscreen sec hsec
    have hbase : registryExecute registry env ts name args =
        (match tool.exec args with
        | .ok result =>
          let result' := match env.security with
            | some sec => (sec.truncateF result).1
            | none => result
          let summary := if 100 < strLen result' then strTake result' 100
            else result'
          (result',
            [{ ts := ts, sessionId := env.sessionId, action := "tool_call",
               toolName := some name, parameters := pvalArgs args,
               resultSummary := "executing...", userApproved := true }] ++
            [{ ts := ts, sessionId := env.sessionId, action := "tool_result",
               toolName := some name, parameters := [],
               resultSummary := summary, userApproved := true }])
        | .exc e =>
          ("Error executing " ++ name ++ ": " ++ e,
            [{ ts := ts, sessionId := env.sessionId, action := "tool_call",
               toolName := some name, parameters := pvalArgs args,
               resultSummary := "executing...", userApproved := true }] ++
            [{ ts := ts, sessionId := env.sessionId, action := "tool_error",
               toolName := some name, parameters := [],
               resultSummary := "Error executing " ++ name ++ ": " ++ e,
               userApproved := true }])) := by
      simp [registryExecute, hfind, hs, haud]
    refine ⟨?_, ?_, ?_⟩
    · rw [hbase]
      cases tool.exec args <;> simp
    · rw [hbase]
      cases tool.exec args <;> simp
    · intro h store
      simp [auditLog]

/-- Witness for C2 (amended) at concrete inputs: a registered tool that
succeeds is logged with a `tool_call` entry. -/
theorem C2_registryExecute_logging_witness :
    1 ≤ (registryExecute [⟨"echo", fun _ => .ok "done"⟩] ⟨"s1", none, true⟩
      "ts" "echo" [("x", "1")]).2.length ∧
    (registryExecute [⟨"echo", fun _ => .ok "done"⟩] ⟨"s1", none, true⟩
      "ts" "echo" [("x", "1")]).2.head? =
      some { ts := "ts", sessionId := "s1", action := "tool_call",
             toolName := some "echo", parameters := pvalArgs [("x", "1")],
             resultSummary := "executing...", userApproved := true } :=
  have h := (C2_registryExecute_logging [⟨"echo", fun _ => .ok "done"⟩]
    ⟨"s1", none, true⟩ "ts" "echo" [("x", "1")]).2.2
    ⟨"echo", fun _ => .ok "done"⟩ rfl rfl (fun _ hsec => nomatch hsec)
  ⟨h.1, h.2.1⟩

/-- Counterexample to C2 as stated: an invocation attempt naming an
unknown tool, with an audit logger attached, produces no audit entry at
all — the dispatcher returns before its first `AuditLogger.log` call. -/
theorem C2_registryExecute_counterexample :
    registryExecute [] ⟨"s1", none, true⟩ "ts" "nope" [] =
      ("Error: Unknown tool 'nope'", []) := rfl

/-! ## C4: read-before-write invariant -/

theorem find?_map_write (p c : String) :
    ∀ l : List (String × String), (l.find? (·.1 = p)).isSome →
      (l.map (fun kv => if kv.1 = p then (kv.1, c) else kv)).find? (·.1 = p) =
        some (p, c) := by
  intro l
  induction l with
  | nil => simp [List.find?]
  | cons kv rest ih =>
    intro hsome
    rw [List.find?_cons] at hsome
    by_cases hk : kv.1 = p
    · simp [List.find?_cons, hk]
    · have hs' : (rest.find? (·.1 = p)).isSome := by
        simpa [hk] using hsome
      simp [List.find?_cons, hk, ih hs']

theorem fsLookup_fsWrite_self (fs : FileSys) (p c : String) :
    fsLookup (fsWrite fs p c) p = some c := by
  unfold fsWrite
  by_cases hf : (fs.files.find? (·.1 = p)).isSome
  · simp only [if_pos hf]
    unfold fsLookup
    rw [find?_map_write p c fs.files hf]
    rfl
  · simp only [if_neg hf]
    simp [fsLookup, List.find?_cons]

/-- C4: `write_file` on an existing path that is not in the context's
files-read set returns the read-before-overwrite error and leaves the
filesystem and context unchanged; `edit_file` on a path not in the
files-read set returns the read-before-edit error; and after a
successful `read_file` of that path (which adds it to the set), the
same write succeeds and an edit whose `old_string` occurs exactly once
succeeds — the read-before-write check no longer rejects them. -/
theorem C4_read_before_write (fs : FileSys) (ctx : ToolContext)
    (a : ReadArgs) (content wcontent old new : String) :
    (fsHasPath fs (resolveToolPath ctx.workingDir a.filePath) = true →
      ¬ wasFileRead ctx (resolveToolPath ctx.workingDir a.filePath) = true →
      writeFileT fs ctx ⟨a.filePath, wcontent⟩ =
        (mustReadBeforeWrite, fs, ctx)) ∧
    (¬ wasFileRead ctx (resolveToolPath ctx.workingDir a.filePath) = true →
      editFileT fs ctx ⟨a.filePath, old, new, false⟩ =
        (mustReadBeforeEdit, fs, ctx)) ∧
    (fsLookup fs (resolveToolPath ctx.workingDir a.filePath) = some content →
      fsIsDir fs (resolveToolPath ctx.workingDir a.filePath) = false →
      (resolveToolPath ctx.workingDir a.filePath ∈
        (readFileT fs ctx a).2.filesRead) ∧
      ((writeFileT fs (readFileT fs ctx a).2 ⟨a.filePath, wcontent⟩).1 =
        "Successfully wrote " ++ toString (strLen wcontent) ++ " bytes to " ++
          resolveToolPath ctx.workingDir a.filePath ∧
       fsLookup (writeFileT fs (readFileT fs ctx a).2
           ⟨a.filePath, wcontent⟩).2.1
         (resolveToolPath ctx.workingDir a.filePath) = some wcontent) ∧
      (countOccur content old = 1 →
        fsLookup (editFileT fs (readFileT fs ctx a).2
            ⟨a.filePath, old, new, false⟩).2.1
          (resolveToolPath ctx.workingDir a.filePath) =
          some (pyReplaceFirst content old new))) := by
  refine ⟨?_, ?_, ?_⟩
  · intro hhas hread
    simp [writeFileT, hhas, hread]
  · intro hread
    simp [editFileT, hread]
  · intro hlook hdir
    have hhas : fsHasPath fs (resolveToolPath ctx.workingDir a.filePath) =
        true := by
      simp [fsHasPath, hlook]
    have hctx : (readFileT fs ctx a).2 =
        markFileRead ctx (resolveToolPath ctx.workingDir a.filePath) := by
      simp [readFileT, hhas, hdir, hlook]
    have hmem : resolveToolPath ctx.workingDir a.filePath ∈
        (markFileRead ctx (resolveToolPath ctx.workingDir a.filePath)).filesRead :=
      List.mem_insert_self _ _
    have hwasRead : wasFileRead
        (markFileRead ctx (resolveToolPath ctx.workingDir a.filePath))
        (resolveToolPath ctx.workingDir a.filePath) = true := by
      simpa [wasFileRead] using hmem
    have hwd : (markFileRead ctx
        (resolveToolPath ctx.workingDir a.filePath)).workingDir =
        ctx.workingDir := rfl
    refine ⟨by rw [hctx]; exact hmem, ⟨?_, ?_⟩, ?_⟩
    · rw [hctx]
      simp [writeFileT, hwd, hhas, hwasRead]
    · rw [hctx]
      have hcond : ¬ (fsHasPath fs
          (resolveToolPath ctx.workingDir a.filePath) = true ∧
          ¬ wasFileRead (markFileRead ctx
            (resolveToolPath ctx.workingDir a.filePath))
            (resolveToolPath ctx.workingDir a.filePath) = true) := by
        simp [hwasRead]
      simp only [writeFileT, hwd]
      rw [if_neg hcond]
      exact fsLookup_fsWrite_self _ _ _
    · intro hcount
      rw [hctx]
      simp only [editFileT, hwd, hwasRead, hhas, hlook, hcount]
      norm_num
      exact fsLookup_fsWrite_self _ _ _

/-- Witness for C4 at concrete inputs. -/
theorem C4_read_before_write_witness :
    writeFileT ⟨[("/w/a.txt", "hello")], []⟩ ⟨"/w", "s", []⟩
      ⟨"a.txt", "new"⟩ =
      (mustReadBeforeWrite, ⟨[("/w/a.txt", "hello")], []⟩,
        ⟨"/w", "s", []⟩) ∧
    editFileT ⟨[("/w/a.txt", "hello")], []⟩ ⟨"/w", "s", []⟩
      ⟨"a.txt", "ell", "EL", false⟩ =
      (mustReadBeforeEdit, ⟨[("/w/a.txt", "hello")], []⟩,
        ⟨"/w", "s", []⟩) ∧
    fsLookup (writeFileT ⟨[("/w/a.txt", "hello")], []⟩
        (readFileT ⟨[("/w/a.txt", "hello")], []⟩ ⟨"/w", "s", []⟩
          ⟨"a.txt", 0, 2000⟩).2 ⟨"a.txt", "new"⟩).2.1
      (resolveToolPath "/w" "a.txt") = some "new" ∧
    fsLookup (editFileT ⟨[("/w/a.txt", "hello")], []⟩
        (readFileT ⟨[("/w/a.txt", "hello")], []⟩ ⟨"/w", "s", []⟩
          ⟨"a.txt", 0, 2000⟩).2 ⟨"a.txt", "ell", "EL", false⟩).2.1
      (resolveToolPath "/w" "a.txt") =
      some (pyReplaceFirst "hello" "ell" "EL") :=
  have h := C4_read_before_write ⟨[("/w/a.txt", "hello")], []⟩
    ⟨"/w", "s", []⟩ ⟨"a.txt", 0, 2000⟩ "hello" "new" "ell" "EL"
  have h3 := h.2.2 (by decide) (by decide)
  ⟨h.1 (by decide) (by decide), h.2.1 (by decide),
   h3.2.1.2, h3.2.2 (by decide)⟩

/-! ## C5: audit-log integrity verification -/

theorem buildLog_hash_ok_aux (h : String → String) :
    ∀ (calls : List LogArgs) (store : List AuditEntry),
      (∀ e ∈ store, e.hashVal = h (entryContentOf e)) →
      ∀ e ∈ calls.foldl (auditLog h) store,
        e.hashVal = h (entryContentOf e) := by
  intro calls
  induction calls with
  | nil => exact fun store hs => hs
  | cons c rest ih =>
    intro store hs
    refine ih (auditLog h store c) ?_
    intro e he
    rcases List.mem_append.mp he with he | he
    · exact hs e he
    · rcases List.mem_singleton.mp he with rfl
      rfl

theorem buildLog_hash_ok (h : String → String) (calls : List LogArgs) :
    ∀ e ∈ buildLog h calls, e.hashVal = h (entryContentOf e) :=
  buildLog_hash_ok_aux h calls [] (by intro e he; simp at he)

theorem length_filterMap_mismatch (h : String → String) :
    ∀ (n : Nat) (l : List AuditEntry),
      ((l.enumFrom n).filterMap (fun p =>
        if entryMismatch h p.2 then
          some ("Entry " ++ toString p.1 ++
            ": Hash mismatch (possible tampering)")
        else none)).length = l.countP (entryMismatch h) := by
  intro n l
  induction l generalizing n with
  | nil => rfl
  | cons e rest ih =>
    by_cases hm : entryMismatch h e = true
    · simp [List.enumFrom, List.filterMap_cons, hm, List.countP_cons, ih]
    · simp only [Bool.not_eq_true] at hm
      simp [List.enumFrom, List.filterMap_cons, hm, List.countP_cons, ih]

theorem entryIssues_length (h : String → String) (entries : List AuditEntry) :
    (entryIssues h entries).length = entries.countP (entryMismatch h) := by
  unfold entryIssues
  exact length_filterMap_mismatch h 0 entries

theorem verifyIntegrity_countP (h : String → String)
    (store : List AuditEntry) :
    (verifyIntegrity h store).2.length = store.countP (entryMismatch h) := by
  unfold verifyIntegrity sortEntries
  simp only []
  rw [entryIssues_length]
  exact (List.mergeSort_perm store _).countP_eq _

theorem verifyIntegrity_of_no_mismatch (h : String → String)
    (store : List AuditEntry)
    (hall : store.countP (entryMismatch h) = 0) :
    verifyIntegrity h store = (true, []) := by
  have hlen : (verifyIntegrity h store).2.length = 0 :=
    (verifyIntegrity_countP h store).trans hall
  have hnil : (verifyIntegrity h store).2 = [] :=
    List.length_eq_zero.mp hlen
  have hfst : (verifyIntegrity h store).1 = (verifyIntegrity h store).2.isEmpty :=
    rfl
  rw [Prod.ext_iff, hfst, hnil]
  exact ⟨rfl, rfl⟩

/-- C5: over entries produced by `log`, `verify_integrity` reports
valid with an empty issue list; replacing one stored entry by a variant
that keeps the stored hash but changes any hash-input field (timestamp,
session id, action, tool name or result summary — so that the
recomputed hash differs) yields exactly one issue and an invalid
verdict; and replacing only an entry's `parameters` field yields zero
issues, because parameters are excluded from the hash input. -/
theorem C5_verifyIntegrity (h : String → String) (calls : List LogArgs) :
    (verifyIntegrity h (buildLog h calls) = (true, [])) ∧
    (∀ i e' (hi : i < (buildLog h calls).length),
      e'.hashVal = ((buildLog h calls).get ⟨i, hi⟩).hashVal →
      h (entryContentOf e') ≠
        h (entryContentOf ((buildLog h calls).get ⟨i, hi⟩)) →
      (verifyIntegrity h ((buildLog h calls).set i e')).1 = false ∧
      (verifyIntegrity h ((buildLog h calls).set i e')).2.length = 1) ∧
    (∀ i ps (hi : i < (buildLog h calls).length),
      verifyIntegrity h ((buildLog h calls).set i
        { (buildLog h calls).get ⟨i, hi⟩ with parameters := ps }) =
        (true, [])) := by
  have hok := buildLog_hash_ok h calls
  have hzero : (buildLog h calls).countP (entryMismatch h) = 0 := by
    rw [List.countP_eq_zero]
    intro e he
    simp [entryMismatch, hok e he]
  refine ⟨verifyIntegrity_of_no_mismatch h _ hzero, ?_, ?_⟩
  · intro i e' hi hhash hcontent
    have hgetmem : (buildLog h calls).get ⟨i, hi⟩ ∈ buildLog h calls :=
      List.get_mem _ _ hi
    have hgetok := hok _ hgetmem
    have hmis : entryMismatch h e' = true := by
      simp only [entryMismatch, decide_eq_true_eq]
      rw [hhash, hgetok]
      exact hcontent.symm
    have hmisold : entryMismatch h ((buildLog h calls)[i]) = false := by
      simp [entryMismatch, hok _ (List.getElem_mem hi)]
    have hcnt : ((buildLog h calls).set i e').countP (entryMismatch h) = 1 := by
      rw [List.countP_set _ _ _ _ hi, hmisold, hzero, hmis]
      decide
    have hlen : (verifyIntegrity h ((buildLog h calls).set i e')).2.length = 1 :=
      (verifyIntegrity_countP h _).trans hcnt
    refine ⟨?_, hlen⟩
    rcases hiss : (verifyIntegrity h ((buildLog h calls).set i e')).2 with
      _ | ⟨x, xs⟩
    · rw [hiss] at hlen
      simp at hlen
    · have : (verifyIntegrity h ((buildLog h calls).set i e')).1 =
          (verifyIntegrity h ((buildLog h calls).set i e')).2.isEmpty := rfl
      rw [this, hiss]
      rfl
  · intro i ps hi
    have hgetmem : (buildLog h calls).get ⟨i, hi⟩ ∈ buildLog h calls :=
      List.get_mem _ _ hi
    have hgetok := hok _ hgetmem
    have hmis' : entryMismatch h
        { (buildLog h calls).get ⟨i, hi⟩ with parameters := ps } = false := by
      simp only [entryMismatch]
      have hc : entryContentOf
          { (buildLog h calls).get ⟨i, hi⟩ with parameters := ps } =
          entryContentOf ((buildLog h calls).get ⟨i, hi⟩) := rfl
      have hh : AuditEntry.hashVal
          { (buildLog h calls).get ⟨i, hi⟩ with parameters := ps } =
          ((buildLog h calls).get ⟨i, hi⟩).hashVal := rfl
      rw [hc, hh, hgetok]
      simp
    have hmisold : entryMismatch h ((buildLog h calls)[i]) = false := by
      simp [entryMismatch, hok _ (List.getElem_mem hi)]
    apply verifyIntegrity_of_no_mismatch
    rw [List.countP_set _ _ _ _ hi, hmisold, hzero, hmis']
    decide

/-- Witness for C5 at concrete inputs (`h` instantiated with the
identity function, a two-entry log): untouched verification is clean,
tampering with one `resultSummary` yields exactly one issue, tampering
with one `parameters` field yields none. -/
theorem C5_verifyIntegrity_witness :
    verifyIntegrity (fun s => s) (buildLog (fun s => s)
      [⟨"t1", "s", "act", some "tool", [], "r1", true⟩,
       ⟨"t2", "s", "act", none, [], "r2", true⟩]) = (true, []) ∧
    (verifyIntegrity (fun s => s) ((buildLog (fun s => s)
      [⟨"t1", "s", "act", some "tool", [], "r1", true⟩,
       ⟨"t2", "s", "act", none, [], "r2", true⟩]).set 0
      { (buildLog (fun s => s)
          [⟨"t1", "s", "act", some "tool", [], "r1", true⟩,
           ⟨"t2", "s", "act", none, [], "r2", true⟩]).get ⟨0, by decide⟩ with
          resultSummary := "tampered" })).2.length = 1 ∧
    verifyIntegrity (fun s => s) ((buildLog (fun s => s)
      [⟨"t1", "s", "act", some "tool", [], "r1", true⟩,
       ⟨"t2", "s", "act", none, [], "r2", true⟩]).set 1
      { (buildLog (fun s => s)
          [⟨"t1", "s", "act", some "tool", [], "r1", true⟩,
           ⟨"t2", "s", "act", none, [], "r2", true⟩]).get ⟨1, by decide⟩ with
          parameters := [("p", PVal.other)] }) = (true, []) := by
  have h := C5_verifyIntegrity (fun s => s)
    [⟨"t1", "s", "act", some "tool", [], "r1", true⟩,
     ⟨"t2", "s", "act", none, [], "r2", true⟩]
  refine ⟨h.1, ?_, ?_⟩
  · exact (h.2.1 0
      { (buildLog (fun s => s)
          [⟨"t1", "s", "act", some "tool", [], "r1", true⟩,
           ⟨"t2", "s", "act", none, [], "r2", true⟩]).get ⟨0, by decide⟩ with
          resultSummary := "tampered" } (by decide) rfl (by decide)).2
  · exact h.2.2 1 [("p", PVal.other)] (by decide)

/-! ## C9: context-monitor threshold warnings -/

theorem bandOf_cases (t : Nat) :
    bandOf t = 0 ∨ bandOf t = 80 ∨ bandOf t = 90 ∨ bandOf t = 95 := by
  unfold bandOf
  split_ifs <;> simp

theorem checkAndWarn_level (st : CMState) (ms : List Msg) :
    (checkAndWarn st ms).2.lastWarningLevel =
      if 80 ≤ bandOf (estimateTokensCM ms) ∧
          st.lastWarningLevel < bandOf (estimateTokensCM ms) then
        bandOf (estimateTokensCM ms)
      else st.lastWarningLevel := by
  unfold checkAndWarn bandOf usagePercent
  by_cases h95 : (0.95 : ℚ) ≤ (estimateTokensCM ms : ℚ) / (MAX_TOKENS : ℚ)
  · simp only [h95, if_pos, if_true]
    by_cases hl : st.lastWarningLevel < 95 <;> simp [hl]
  · simp only [h95, if_false, if_neg h95]
    by_cases h90 : (0.90 : ℚ) ≤ (estimateTokensCM ms : ℚ) / (MAX_TOKENS : ℚ)
    · simp only [h90, if_pos, if_true]
      by_cases hl : st.lastWarningLevel < 90 <;> simp [hl]
    · simp only [h90, if_neg h90]
      by_cases h80 : (0.80 : ℚ) ≤ (estimateTokensCM ms : ℚ) / (MAX_TOKENS : ℚ)
      · simp only [h80, if_pos, if_true]
        by_cases hl : st.lastWarningLevel < 80 <;> simp [hl]
      · simp [h80]

theorem checkAndWarn_isSome (st : CMState) (ms : List Msg) :
    (checkAndWarn st ms).1.isSome =
      decide (80 ≤ bandOf (estimateTokensCM ms) ∧
        st.lastWarningLevel < bandOf (estimateTokensCM ms)) := by
  unfold checkAndWarn bandOf usagePercent
  by_cases h95 : (0.95 : ℚ) ≤ (estimateTokensCM ms : ℚ) / (MAX_TOKENS : ℚ)
  · simp only [h95, if_pos, if_true]
    by_cases hl : st.lastWarningLevel < 95 <;> simp [hl]
  · simp only [h95, if_neg h95]
    by_cases h90 : (0.90 : ℚ) ≤ (estimateTokensCM ms : ℚ) / (MAX_TOKENS : ℚ)
    · simp only [h90, if_pos, if_true]
      by_cases hl : st.lastWarningLevel < 90 <;> simp [hl]
    · simp only [h90, if_neg h90]
      by_cases h80 : (0.80 : ℚ) ≤ (estimateTokensCM ms : ℚ) / (MAX_TOKENS : ℚ)
      · simp only [h80, if_pos, if_true]
        by_cases hl : st.lastWarningLevel < 80 <;> simp [hl]
      · simp [h80]

theorem checkAndWarn_store (st : CMState) (ms : List Msg) :
    (checkAndWarn st ms).2.checkpointStore =
      if bandOf (estimateTokensCM ms) = 80 ∧ st.lastWarningLevel < 80 then
        some (mkCheckpoint ms)
      else st.checkpointStore := by
  unfold checkAndWarn bandOf usagePercent
  by_cases h95 : (0.95 : ℚ) ≤ (estimateTokensCM ms : ℚ) / (MAX_TOKENS : ℚ)
  · simp only [h95, if_pos, if_true]
    by_cases hl : st.lastWarningLevel < 95 <;> simp [hl]
  · simp only [h95, if_neg h95]
    by_cases h90 : (0.90 : ℚ) ≤ (estimateTokensCM ms : ℚ) / (MAX_TOKENS : ℚ)
    · simp only [h90, if_pos, if_true]
      by_cases hl : st.lastWarningLevel < 90 <;> simp [hl]
    · simp only [h90, if_neg h90]
      by_cases h80 : (0.80 : ℚ) ≤ (estimateTokensCM ms : ℚ) / (MAX_TOKENS : ℚ)
      · simp only [h80, if_pos, if_true]
        by_cases hl : st.lastWarningLevel < 80 <;> simp [hl]
      · simp [h80]

theorem runWarnLevels_eq :
    ∀ (inputs : List (List Msg)) (st : CMState),
      runWarnLevels st inputs = firedFrom st.lastWarningLevel (bandsOf inputs) := by
  intro inputs
  induction inputs with
  | nil => intro st; rfl
  | cons ms rest ih =>
    intro st
    have hbands : bandsOf (ms :: rest) =
        bandOf (estimateTokensCM ms) :: bandsOf rest := rfl
    by_cases hc : 80 ≤ bandOf (estimateTokensCM ms) ∧
        st.lastWarningLevel < bandOf (estimateTokensCM ms)
    · have hsome : (checkAndWarn st ms).1.isSome = true := by
        rw [checkAndWarn_isSome]
        exact decide_eq_true hc
      rcases hw : (checkAndWarn st ms).1 with _ | w
      · rw [hw] at hsome
        simp at hsome
      · have hlvl : (checkAndWarn st ms).2.lastWarningLevel =
            bandOf (estimateTokensCM ms) := by
          rw [checkAndWarn_level, if_pos hc]
        simp only [runWarnLevels, hw]
        rw [hbands, firedFrom, if_pos hc, ih, hlvl]
    · have hnone : (checkAndWarn st ms).1 = none := by
        have h := checkAndWarn_isSome st ms
        rw [decide_eq_false hc] at h
        exact Option.not_isSome_iff_eq_none.mp (by rw [h]; exact fun hx => nomatch hx)
      have hlvl : (checkAndWarn st ms).2.lastWarningLevel =
          st.lastWarningLevel := by
        rw [checkAndWarn_level, if_neg hc]
      simp only [runWarnLevels, hnone]
      rw [hbands, firedFrom, if_neg hc, ih, hlvl]

theorem firedFrom_lt :
    ∀ (bs : List Nat) (l : Nat),
      (∀ x ∈ firedFrom l bs, l < x) ∧ List.Chain' (· < ·) (firedFrom l bs) := by
  intro bs
  induction bs with
  | nil => intro l; simp [firedFrom]
  | cons b rest ih =>
    intro l
    by_cases hc : 80 ≤ b ∧ l < b
    · rw [firedFrom, if_pos hc]
      have hmem : ∀ x ∈ firedFrom b rest, b < x := (ih b).1
      refine ⟨?_, ?_⟩
      · intro x hx
        rcases List.mem_cons.mp hx with rfl | hx'
        · exact hc.2
        · exact Nat.lt_trans hc.2 (hmem x hx')
      · rw [List.chain'_cons']
        refine ⟨?_, (ih b).2⟩
        intro y hy
        exact hmem y (List.mem_of_mem_head? hy)
    · rw [firedFrom, if_neg hc]
      exact ih l

theorem bandsOf_subset (inputs : List (List Msg)) :
    ∀ x ∈ bandsOf inputs, x = 0 ∨ x = 80 ∨ x = 90 ∨ x = 95 := by
  intro x hx
  rcases List.mem_map.mp hx with ⟨ms, _, rfl⟩
  exact bandOf_cases (estimateTokensCM ms)

theorem firedFrom_95 :
    ∀ bs : List Nat, (∀ x ∈ bs, x ≤ 95) → firedFrom 95 bs = [] := by
  intro bs
  induction bs with
  | nil => intro _; rfl
  | cons b rest ih =>
    intro hle
    have hb := hle b (List.mem_cons_self _ _)
    rw [firedFrom, if_neg (by omega)]
    exact ih (fun x hx => hle x (List.mem_cons_of_mem _ hx))

theorem firedFrom_90 :
    ∀ bs : List Nat, List.Sorted (· ≤ ·) bs →
      (∀ x ∈ bs, x = 0 ∨ x = 80 ∨ x = 90 ∨ x = 95) → 95 ∈ bs →
      firedFrom 90 bs = [95] := by
  intro bs
  induction bs with
  | nil => intro _ _ h95; simp at h95
  | cons b rest ih =>
    intro hsort hsub h95
    have hsort' := (List.sorted_cons.mp hsort).2
    have hfirst := (List.sorted_cons.mp hsort).1
    have hsub' : ∀ x ∈ rest, x = 0 ∨ x = 80 ∨ x = 90 ∨ x = 95 :=
      fun x hx => hsub x (List.mem_cons_of_mem _ hx)
    rcases hsub b (List.mem_cons_self _ _) with hb | hb | hb | hb
    · subst hb
      rw [firedFrom, if_neg (by omega)]
      exact ih hsort' hsub' (by
        rcases List.mem_cons.mp h95 with h | h
        · omega
        · exact h)
    · subst hb
      rw [firedFrom, if_neg (by omega)]
      exact ih hsort' hsub' (by
        rcases List.mem_cons.mp h95 with h | h
        · omega
        · exact h)
    · subst hb
      rw [firedFrom, if_neg (by omega)]
      exact ih hsort' hsub' (by
        rcases List.mem_cons.mp h95 with h | h
        · omega
        · exact h)
    · subst hb
      rw [firedFrom, if_pos (by omega)]
      rw [firedFrom_95 rest (fun x hx => by rcases hsub' x hx with h|h|h|h <;> omega)]

theorem firedFrom_80 :
    ∀ bs : List Nat, List.Sorted (· ≤ ·) bs →
      (∀ x ∈ bs, x = 0 ∨ x = 80 ∨ x = 90 ∨ x = 95) → 90 ∈ bs → 95 ∈ bs →
      firedFrom 80 bs = [90, 95] := by
  intro bs
  induction bs with
  | nil => intro _ _ h90 _; simp at h90
  | cons b rest ih =>
    intro hsort hsub h90 h95
    have hsort' := (List.sorted_cons.mp hsort).2
    have hfirst := (List.sorted_cons.mp hsort).1
    have hsub' : ∀ x ∈ rest, x = 0 ∨ x = 80 ∨ x = 90 ∨ x = 95 :=
      fun x hx => hsub x (List.mem_cons_of_mem _ hx)
    rcases hsub b (List.mem_cons_self _ _) with hb | hb | hb | hb
    · subst hb
      rw [firedFrom, if_neg (by omega)]
      refine ih hsort' hsub' ?_ ?_
      · rcases List.mem_cons.mp h90 with h | h
        · omega
        · exact h
      · rcases List.mem_cons.mp h95 with h | h
        · omega
        · exact h
    · subst hb
      rw [firedFrom, if_neg (by omega)]
      refine ih hsort' hsub' ?_ ?_
      · rcases List.mem_cons.mp h90 with h | h
        · omega
        · exact h
      · rcases List.mem_cons.mp h95 with h | h
        · omega
        · exact h
    · subst hb
      rw [firedFrom, if_pos (by omega)]
      rw [firedFrom_90 rest hsort' hsub' (by
        rcases List.mem_cons.mp h95 with h | h
        · omega
        · exact h)]
    · subst hb
      exfalso
      rcases List.mem_cons.mp h90 with h | h
      · omega
      · have := hfirst 90 h
        omega

theorem firedFrom_full :
    ∀ bs : List Nat, List.Sorted (· ≤ ·) bs →
      (∀ x ∈ bs, x = 0 ∨ x = 80 ∨ x = 90 ∨ x = 95) →
      80 ∈ bs → 90 ∈ bs → 95 ∈ bs →
      firedFrom 0 bs = [80, 90, 95] := by
  intro bs
  induction bs with
  | nil => intro _ _ h80 _ _; simp at h80
  | cons b rest ih =>
    intro hsort hsub h80 h90 h95
    have hsort' := (List.sorted_cons.mp hsort).2
    have hfirst := (List.sorted_cons.mp hsort).1
    have hsub' : ∀ x ∈ rest, x = 0 ∨ x = 80 ∨ x = 90 ∨ x = 95 :=
      fun x hx => hsub x (List.mem_cons_of_mem _ hx)
    rcases hsub b (List.mem_cons_self _ _) with hb | hb | hb | hb
    · subst hb
      rw [firedFrom, if_neg (by omega)]
      refine ih hsort' hsub' ?_ ?_ ?_
      · rcases List.mem_cons.mp h80 with h | h
        · omega
        · exact h
      · rcases List.mem_cons.mp h90 with h | h
        · omega
        · exact h
      · rcases List.mem_cons.mp h95 with h | h
        · omega
        · exact h
    · subst hb
      rw [firedFrom, if_pos (by omega)]
      rw [firedFrom_80 rest hsort' hsub'
        (by
          rcases List.mem_cons.mp h90 with h | h
          · omega
          · exact h)
        (by
          rcases List.mem_cons.mp h95 with h | h
          · omega
          · exact h)]
    · subst hb
      exfalso
      rcases List.mem_cons.mp h80 with h | h
      · omega
      · have := hfirst 80 h
        omega
    · subst hb
      exfalso
      rcases List.mem_cons.mp h80 with h | h
      · omega
      · have := hfirst 80 h
        omega

/-- C9: across any sequence of `check_and_warn` calls the fired warning
levels are strictly increasing (a threshold already passed is never
warned again) and `last_warning_level` is non-decreasing; when the
estimated usage ascends through the 80%, 90% and 95% bands of the
200K-token budget, starting from a fresh manager, exactly one warning
fires per threshold, in ascending order; the call that crosses 80%
synchronously saves a checkpoint of the current messages, which
`load_checkpoint` then returns, and later calls never erase a stored
checkpoint. -/
theorem C9_contextMonitor_thresholds (st : CMState)
    (inputs : List (List Msg)) (ms : List Msg) :
    st.lastWarningLevel ≤ (checkAndWarn st ms).2.lastWarningLevel ∧
    List.Chain' (· < ·) (runWarnLevels st inputs) ∧
    (List.Sorted (· ≤ ·) (bandsOf inputs) → 80 ∈ bandsOf inputs →
      90 ∈ bandsOf inputs → 95 ∈ bandsOf inputs →
      runWarnLevels initCMState inputs = [80, 90, 95]) ∧
    (bandOf (estimateTokensCM ms) = 80 → st.lastWarningLevel < 80 →
      (checkAndWarn st ms).1.isSome = true ∧
      (checkAndWarn st ms).2.checkpointStore = some (mkCheckpoint ms) ∧
      loadCheckpoint (checkAndWarn st ms).2 = some (mkCheckpoint ms)) ∧
    (st.checkpointStore.isSome = true →
      (checkAndWarn st ms).2.checkpointStore.isSome = true) := by
  refine ⟨?_, ?_, ?_, ?_, ?_⟩
  · rw [checkAndWarn_level]
    split_ifs with h
    · exact Nat.le_of_lt h.2
    · exact Nat.le_refl _
  · rw [runWarnLevels_eq]
    exact (firedFrom_lt _ _).2
  · intro hs h80 h90 h95
    rw [runWarnLevels_eq]
    exact firedFrom_full _ hs (bandsOf_subset inputs) h80 h90 h95
  · intro hband hlvl
    refine ⟨?_, ?_, ?_⟩
    · rw [checkAndWarn_isSome]
      exact decide_eq_true ⟨by omega, by omega⟩
    · rw [checkAndWarn_store, if_pos ⟨hband, hlvl⟩]
    · show (checkAndWarn st ms).2.checkpointStore = _
      rw [checkAndWarn_store, if_pos ⟨hband, hlvl⟩]
  · intro hsome
    rw [checkAndWarn_store]
    split_ifs
    · rfl
    · exact hsome

/-- Witness for C9 at concrete inputs: three message lists estimated at
160 000, 180 000 and 190 000 tokens (80%, 90% and 95% of the budget)
fire exactly the three warnings in order, and the 80% crossing saves a
retrievable checkpoint. -/
theorem C9_contextMonitor_thresholds_witness :
    runWarnLevels initCMState
      [[⟨"user", MContent.plain (String.mk (List.replicate 640000 'a'))⟩],
       [⟨"user", MContent.plain (String.mk (List.replicate 720000 'a'))⟩],
       [⟨"user", MContent.plain (String.mk (List.replicate 760000 'a'))⟩]] =
      [80, 90, 95] ∧
    loadCheckpoint (checkAndWarn initCMState
      [⟨"user", MContent.plain (String.mk (List.replicate 640000 'a'))⟩]).2 =
      some (mkCheckpoint
        [⟨"user", MContent.plain (String.mk (List.replicate 640000 'a'))⟩]) := by
  have hsingle : ∀ (role : String) (s : String),
      estimateTokensCM [⟨role, MContent.plain s⟩] = strLen s / 4 := by
    intro role s
    simp [estimateTokensCM]
  have hlen : ∀ n : Nat, strLen (String.mk (List.replicate n 'a')) = n := by
    intro n
    rw [strLen]
    exact List.length_replicate _ _
  have ht80 : estimateTokensCM
      [⟨"user", MContent.plain (String.mk (List.replicate 640000 'a'))⟩] =
      160000 := by
    rw [hsingle, hlen]
  have ht90 : estimateTokensCM
      [⟨"user", MContent.plain (String.mk (List.replicate 720000 'a'))⟩] =
      180000 := by
    rw [hsingle, hlen]
  have ht95 : estimateTokensCM
      [⟨"user", MContent.plain (String.mk (List.replicate 760000 'a'))⟩] =
      190000 := by
    rw [hsingle, hlen]
  have hb80 : bandOf 160000 = 80 := by norm_num [bandOf, MAX_TOKENS]
  have hb90 : bandOf 180000 = 90 := by norm_num [bandOf, MAX_TOKENS]
  have hb95 : bandOf 190000 = 95 := by norm_num [bandOf, MAX_TOKENS]
  have hbs : bandsOf
      [[⟨"user", MContent.plain (String.mk (List.replicate 640000 'a'))⟩],
       [⟨"user", MContent.plain (String.mk (List.replicate 720000 'a'))⟩],
       [⟨"user", MContent.plain (String.mk (List.replicate 760000 'a'))⟩]] =
      [80, 90, 95] := by
    simp only [bandsOf, List.map_cons, List.map_nil, ht80, ht90, ht95,
      hb80, hb90, hb95]
  have h := C9_contextMonitor_thresholds initCMState
    [[⟨"user", MContent.plain (String.mk (List.replicate 640000 'a'))⟩],
     [⟨"user", MContent.plain (String.mk (List.replicate 720000 'a'))⟩],
     [⟨"user", MContent.plain (String.mk (List.replicate 760000 'a'))⟩]]
    [⟨"user", MContent.plain (String.mk (List.replicate 640000 'a'))⟩]
  refine ⟨h.2.2.1 ?_ ?_ ?_ ?_, ?_⟩
  · rw [hbs]
    decide
  · rw [hbs]
    decide
  · rw [hbs]
    decide
  · rw [hbs]
    decide
  · exact (h.2.2.2.1 (by rw [ht80]; exact hb80) (by decide)).2.2

end Agent
